import Mathlib

/-!
RELEASE Resentments backend: journeys, resources, statistics and coaching chat

A shallow embedding of the route handlers of `src/journey-routes.js`
(`POST /start`, `PUT /:journeyNumber/step`, `PUT /:journeyNumber/pause`,
`PUT /:journeyNumber/resume`, `POST /complete-resource`, the average of
`GET /:userId/stats`) and of `src/ai-routes.js` (`detectCrisis`,
`buildUserContext`, `POST /chat`, `GET /conversation-history/:userId`),
together with the data they read and write on the user document.

Conventions of the embedding:

* JavaScript numbers that hold counters, step numbers and journey numbers are
  `Int`; dates are `Int` milliseconds since the epoch. In the journey handlers
  every `new Date()` of one request is the single argument `now`; the chat
  handler, which waits for the completion provider between its readings, takes
  each reading of the clock as a field of `ChatClock`.
* `User.findById(userId)` is the argument `found : Option User`.
* A handler returns `Except RouteError _`: an early `return res.status(..)`
  is an `.error`, and the value under `.ok` is the document handed to
  `user.save()`. The chat handler returns its response together with the
  document it saved, if any.
* The arrays of the user document behave as JavaScript arrays: `push` stores
  the object itself, and a later mutation of that object is part of the saved
  document.
* Strings are lists of characters; the preview of a conversation, which
  `substring` cuts by UTF-16 code units, is a list of code units. The
  lower-casing of `detectCrisis` is an argument of `detectCrisisWith`, and
  `detectCrisis` itself, which the chat handler calls, is its instance at the
  ASCII lower-casing.
-/

namespace Release

/-- The three values the handlers ever write to `journey.status`. -/
inductive JourneyStatus where
  | active
  | paused
  | completed
deriving DecidableEq, Repr

/-- One element of `user.journeys`. -/
structure Journey where
  journeyNumber : Int
  resentmentDescription : String
  currentStep : Int
  completedSteps : List Int
  startDate : Int
  status : JourneyStatus
  completedDate : Option Int
deriving DecidableEq, Repr

/-- The counters of `user.stats`. -/
structure Stats where
  totalJourneysStarted : Int
  totalJourneysCompleted : Int
  totalResourcesCompleted : Int
  totalAIConversations : Int
  currentStreak : Int
  lastActiveDate : Int
deriving DecidableEq, Repr

/-- One element of `user.completedResources`. -/
structure CompletedResource where
  resourceId : String
  resourceName : String
  completedAt : Int
  timesCompleted : Int
deriving DecidableEq, Repr

/-- The role of a chat message. -/
inductive Role where
  | user
  | assistant
deriving DecidableEq, Repr

/-- One element of `conversation.messages`. -/
structure Message where
  role : Role
  content : String
  timestamp : Int
deriving DecidableEq, Repr

/-- The `currentJourney` part of the object built by `buildUserContext`. -/
structure JourneyContext where
  journeyNumber : Int
  currentStep : Int
  completedSteps : List Int
  resentmentDescription : String
deriving DecidableEq, Repr

/-- The object built by `buildUserContext`. -/
structure UserContext where
  screenName : String
  subscriptionTier : String
  totalJourneys : Int
  completedJourneys : Int
  completedResources : Int
  currentStreak : Int
  currentJourney : Option JourneyContext
deriving DecidableEq, Repr

/-- One element of `user.aiConversations`. -/
structure Conversation where
  conversationId : String
  sessionId : String
  messages : List Message
  context : UserContext
  startedAt : Int
  lastMessageAt : Int
deriving DecidableEq, Repr

/-- The user document. The method `hasPremiumAccess()` belongs to
`models/User`, which is not among the sources; its result on this document is
the field `hasPremiumAccess`. -/
structure User where
  screenName : String
  subscriptionTier : String
  hasPremiumAccess : Bool
  stats : Stats
  journeys : List Journey
  completedResources : List CompletedResource
  aiConversations : List Conversation
deriving DecidableEq, Repr

/-- The early returns of the journey handlers. -/
inductive RouteError where
  | userNotFound
  | premiumRequired
  | journeyNotFound
deriving DecidableEq, Repr

/-- The HTTP status passed to `res.status` on each early return. -/
def RouteError.httpStatus : RouteError → Nat
  | .userNotFound => 404
  | .premiumRequired => 403
  | .journeyNotFound => 404

/-- The test `j.status === 'active'` of the filters. -/
def isActive (j : Journey) : Bool :=
  j.status == JourneyStatus.active

/-- The value of `user.journeys.filter(j => j.status === 'active').length`. -/
def activeJourneys (user : User) : Nat :=
  (user.journeys.filter isActive).length

/-- The object literal `newJourney` of `POST /start` (lines 30-37);
`completedDate` is absent from it. -/
def newJourney (journeyNumber : Int) (resentmentDescription : String) (now : Int) : Journey :=
  { journeyNumber := journeyNumber
    resentmentDescription := resentmentDescription
    currentStep := 1
    completedSteps := []
    startDate := now
    status := JourneyStatus.active
    completedDate := none }

/-- The handler of `POST /api/journeys/start` (lines 7-61): on success the
saved document and the journey that was pushed. -/
def startJourney (found : Option User) (resentmentDescription : String) (now : Int) :
    Except RouteError (User × Journey) :=
  match found with
  | none => .error RouteError.userNotFound
  | some user =>
    if !user.hasPremiumAccess && decide (activeJourneys user ≥ 1) then
      .error RouteError.premiumRequired
    else
      let journeyNumber := user.stats.totalJourneysStarted + 1
      let created := newJourney journeyNumber resentmentDescription now
      .ok ({ user with
              journeys := user.journeys ++ [created]
              stats := { user.stats with
                          totalJourneysStarted := user.stats.totalJourneysStarted + 1
                          lastActiveDate := now } }, created)

/-- The call `completedSteps.sort((a, b) => a - b)`: a stable sort into
ascending numeric order. -/
def sortAscending (steps : List Int) : List Int :=
  steps.insertionSort (fun a b => a ≤ b)

/-- The body of `PUT /:journeyNumber/step` between the lookup of the journey
and the refresh of `lastActiveDate` (lines 79-100), as a function of the
journey found and of `user.stats`. -/
def applyStep (journey : Journey) (stats : Stats) (stepNumber : Int) (completed : Bool)
    (now : Int) : Journey × Stats :=
  if completed then
    let marked : Journey :=
      if stepNumber ∈ journey.completedSteps then journey
      else { journey with completedSteps := sortAscending (journey.completedSteps ++ [stepNumber]) }
    let moved : Journey :=
      if stepNumber = marked.currentStep ∧ stepNumber < 7 then
        { marked with currentStep := stepNumber + 1 }
      else marked
    if moved.completedSteps.length = 7 then
      ({ moved with status := JourneyStatus.completed, completedDate := some now },
       { stats with totalJourneysCompleted := stats.totalJourneysCompleted + 1 })
    else (moved, stats)
  else
    ({ journey with currentStep := stepNumber }, stats)

/-- The lookup `user.journeys.find(j => j.journeyNumber === journeyNumber)`. -/
def findJourney (journeys : List Journey) (journeyNumber : Int) : Option Journey :=
  journeys.find? (fun j => j.journeyNumber == journeyNumber)

/-- The in-place mutation of the element returned by `find`: the first journey
with the given number is replaced by its image, the others stay. -/
def updateJourney (journeyNumber : Int) (change : Journey → Journey) :
    List Journey → List Journey
  | [] => []
  | j :: rest =>
    if j.journeyNumber == journeyNumber then change j :: rest
    else j :: updateJourney journeyNumber change rest

/-- The handler of `PUT /api/journeys/:journeyNumber/step` (lines 64-120). -/
def updateJourneyStep (found : Option User) (journeyNumber stepNumber : Int)
    (completed : Bool) (now : Int) : Except RouteError User :=
  match found with
  | none => .error RouteError.userNotFound
  | some user =>
    match findJourney user.journeys journeyNumber with
    | none => .error RouteError.journeyNotFound
    | some journey =>
      let result := applyStep journey user.stats stepNumber completed now
      .ok { user with
              journeys := updateJourney journeyNumber (fun _ => result.1) user.journeys
              stats := { result.2 with lastActiveDate := now } }

/-- The handler of `PUT /api/journeys/:journeyNumber/pause` (lines 214-245). -/
def pauseJourney (found : Option User) (journeyNumber : Int) : Except RouteError User :=
  match found with
  | none => .error RouteError.userNotFound
  | some user =>
    match findJourney user.journeys journeyNumber with
    | none => .error RouteError.journeyNotFound
    | some _ =>
      .ok { user with
              journeys := updateJourney journeyNumber
                (fun j => { j with status := JourneyStatus.paused }) user.journeys }

/-- The handler of `PUT /api/journeys/:journeyNumber/resume` (lines 248-281). -/
def resumeJourney (found : Option User) (journeyNumber : Int) (now : Int) :
    Except RouteError User :=
  match found with
  | none => .error RouteError.userNotFound
  | some user =>
    match findJourney user.journeys journeyNumber with
    | none => .error RouteError.journeyNotFound
    | some _ =>
      .ok { user with
              journeys := updateJourney journeyNumber
                (fun j => { j with status := JourneyStatus.active }) user.journeys
              stats := { user.stats with lastActiveDate := now } }

/-- A request to one of the four journey handlers, for a user that exists. -/
inductive JourneyOp where
  | start (resentmentDescription : String) (now : Int)
  | step (journeyNumber stepNumber : Int) (completed : Bool) (now : Int)
  | pause (journeyNumber : Int)
  | resume (journeyNumber : Int) (now : Int)
deriving DecidableEq, Repr

/-- The stored document after one request: what the handler saved, or the
document as it was when the handler returned before `user.save()`. -/
def applyOp (user : User) : JourneyOp → User
  | .start resentmentDescription now =>
    match startJourney (some user) resentmentDescription now with
    | .ok saved => saved.1
    | .error _ => user
  | .step journeyNumber stepNumber completed now =>
    match updateJourneyStep (some user) journeyNumber stepNumber completed now with
    | .ok saved => saved
    | .error _ => user
  | .pause journeyNumber =>
    match pauseJourney (some user) journeyNumber with
    | .ok saved => saved
    | .error _ => user
  | .resume journeyNumber now =>
    match resumeJourney (some user) journeyNumber now with
    | .ok saved => saved
    | .error _ => user

/-- The stored document after a sequence of requests, first to last. -/
def runOps (user : User) (ops : List JourneyOp) : User :=
  ops.foldl applyOp user

/-- One step-update request to a fixed journey. -/
structure StepRequest where
  stepNumber : Int
  completed : Bool
  now : Int
deriving DecidableEq, Repr

/-- The journey and the stats after a sequence of step-update requests to
that journey, first to last. -/
def runSteps (journey : Journey) (stats : Stats) (requests : List StepRequest) :
    Journey × Stats :=
  requests.foldl (fun acc r => applyStep acc.1 acc.2 r.stepNumber r.completed r.now)
    (journey, stats)

/-- A user document with no journeys and all counters at zero. -/
def freshUser (premium : Bool) : User :=
  { screenName := "sam"
    subscriptionTier := if premium then "premium" else "free"
    hasPremiumAccess := premium
    stats := { totalJourneysStarted := 0, totalJourneysCompleted := 0,
               totalResourcesCompleted := 0, totalAIConversations := 0,
               currentStreak := 0, lastActiveDate := 0 }
    journeys := []
    completedResources := []
    aiConversations := [] }

/-- The seven requests that mark steps 1 to 7 of journey 1 completed, in order. -/
def completeAllSteps : List JourneyOp :=
  [.step 1 1 true 1, .step 1 2 true 2, .step 1 3 true 3, .step 1 4 true 4,
   .step 1 5 true 5, .step 1 6 true 6, .step 1 7 true 7]

/-- The requests that mark steps 1, 2, ..., k of one journey completed, in
that order; `now i` is the clock reading of the request for step `i`. -/
def inOrderRequests (k : Nat) (now : Nat → Int) : List StepRequest :=
  (List.range' 1 k).map (fun i : Nat => { stepNumber := (i : Int), completed := true, now := now i })

/-- The lookup `user.completedResources.find(r => r.resourceId === resourceId)`. -/
def findResource (resources : List CompletedResource) (resourceId : String) :
    Option CompletedResource :=
  resources.find? (fun r => r.resourceId == resourceId)

/-- The in-place mutation of the record returned by `find`: the first record
with the given id is replaced by its image, the others stay. -/
def updateResource (resourceId : String) (change : CompletedResource → CompletedResource) :
    List CompletedResource → List CompletedResource
  | [] => []
  | r :: rest =>
    if r.resourceId == resourceId then change r :: rest
    else r :: updateResource resourceId change rest

/-- The handler of `POST /api/journeys/complete-resource` (lines 284-329). -/
def completeResource (found : Option User) (resourceId resourceName : String) (now : Int) :
    Except RouteError User :=
  match found with
  | none => .error RouteError.userNotFound
  | some user =>
    match findResource user.completedResources resourceId with
    | some _ =>
      .ok { user with
              completedResources := updateResource resourceId
                (fun r => { r with timesCompleted := r.timesCompleted + 1, completedAt := now })
                user.completedResources
              stats := { user.stats with lastActiveDate := now } }
    | none =>
      .ok { user with
              completedResources := user.completedResources ++
                [{ resourceId := resourceId, resourceName := resourceName,
                   completedAt := now, timesCompleted := 1 }]
              stats := { user.stats with
                          totalResourcesCompleted := user.stats.totalResourcesCompleted + 1
                          lastActiveDate := now } }

/-- The constant `1000 * 60 * 60 * 24`: the milliseconds of one day. -/
def millisecondsPerDay : Int := 1000 * 60 * 60 * 24

/-- The value of `Math.ceil(a / b)` for integers `a` and `b` with `b > 0`. -/
def ceilDiv (a b : Int) : Int := -((-a) / b)

/-- The value of `Math.round(a / b)` for integers `a` and `b` with `b > 0`:
the nearest integer, a half rounded up. -/
def roundDiv (a b : Int) : Int := (2 * a + b) / (2 * b)

/-- The `days` of one completed journey in `GET /:userId/stats` (line 346);
`none` is the `NaN` that JavaScript computes when `completedDate` is absent. -/
def completionDays (j : Journey) : Option Int :=
  j.completedDate.map (fun completedDate => ceilDiv (completedDate - j.startDate) millisecondsPerDay)

/-- The filter `user.journeys.filter(j => j.status === 'completed')`. -/
def completedJourneys (user : User) : List Journey :=
  user.journeys.filter (fun j => j.status == JourneyStatus.completed)

/-- The `reduce` of line 345: the sum of the days, `none` once a `NaN` entered it. -/
def totalDays (journeys : List Journey) : Option Int :=
  journeys.foldl
    (fun sum j => sum.bind (fun s => (completionDays j).map (fun days => s + days))) (some 0)

/-- The value `avgCompletionDays` of `GET /:userId/stats` (lines 339-350). -/
def avgCompletionDays (user : User) : Option Int :=
  if (completedJourneys user).length > 0 then
    (totalDays (completedJourneys user)).map
      (fun total => roundDiv total (completedJourneys user).length)
  else some 0

/-- A user with two completed journeys, which took one day and a day and a
half. -/
def twoCompletedUser : User :=
  { freshUser false with
    journeys :=
      [{ newJourney 1 "a" 0 with
          status := JourneyStatus.completed, completedDate := some 86400000 },
       { newJourney 2 "b" 1000 with
          status := JourneyStatus.completed, completedDate := some 129601000 },
       newJourney 3 "c" 5] }

/-- The constant `CRISIS_KEYWORDS` (lines 13-18). -/
def CRISIS_KEYWORDS : List String :=
  ["suicide", "kill myself", "end it all", "want to die", "no reason to live",
   "self harm", "hurt myself", "cut myself", "overdose",
   "hopeless", "can't go on", "better off dead", "harm others",
   "kill someone", "revenge", "make them pay"]

/-- The lower-casing of ASCII text, as the list of the characters of the
result: the letters A to Z become a to z, every other character stays. It is
what `message.toLowerCase()` computes on a message of ASCII characters; on
other characters JavaScript applies the Unicode mapping, for which
`detectCrisisWith` takes the lower-casing as an argument. -/
def toLowerCase (text : String) : List Char :=
  text.toList.map Char.toLower

/-- Whether every character of the message is an ASCII character. -/
def isAscii (message : String) : Bool :=
  message.toList.all (fun c => decide (c.toNat < 128))

/-- Whether the characters of `search` stand at the start of `text`. -/
def startsWith : List Char → List Char → Bool
  | _, [] => true
  | [], _ :: _ => false
  | c :: text, k :: search => c == k && startsWith text search

/-- The call `text.includes(search)`: whether `search` occurs in `text` at
some position. -/
def includes : List Char → List Char → Bool
  | [], search => startsWith [] search
  | c :: text, search => startsWith (c :: text) search || includes text search

/-- The function `detectCrisis` (lines 21-24); `lower message` is the result
of `message.toLowerCase()`. -/
def detectCrisisWith (lower : String → List Char) (message : String) : Bool :=
  let lowerMessage := lower message
  CRISIS_KEYWORDS.any (fun keyword => includes lowerMessage keyword.toList)

/-- The function `detectCrisis` with the ASCII lower-casing: the function of
the source on every message of ASCII characters. -/
def detectCrisis (message : String) : Bool :=
  detectCrisisWith toLowerCase message

/-- The function `buildUserContext` (lines 27-47). -/
def buildUserContext (user : User) (currentJourney : Option Journey) : UserContext :=
  { screenName := user.screenName
    subscriptionTier := user.subscriptionTier
    totalJourneys := user.stats.totalJourneysStarted
    completedJourneys := user.stats.totalJourneysCompleted
    completedResources := user.stats.totalResourcesCompleted
    currentStreak := user.stats.currentStreak
    currentJourney := currentJourney.map (fun journey =>
      { journeyNumber := journey.journeyNumber
        currentStep := journey.currentStep
        completedSteps := journey.completedSteps
        resentmentDescription := journey.resentmentDescription }) }

/-- The array `stepNames` (lines 51, 203 and 346). -/
def stepNames : List String :=
  ["Recognize", "Examine", "Learn", "Embrace", "Affirm", "Sustain", "Evolve"]

/-- The lookup `stepNames[currentStep - 1]`; `none` is `undefined`. -/
def stepName (currentStep : Int) : Option String :=
  if currentStep ≥ 1 then stepNames[(currentStep - 1).toNat]? else none

/-- The object under `crisisResources` in the chat response. -/
structure CrisisResources where
  suicidePreventionLifeline : String
  crisisTextLine : String
  message : String
deriving DecidableEq, Repr

/-- The content of a successful chat response (lines 185-207). -/
structure ChatReply where
  message : String
  sessionId : String
  isCrisis : Bool
  crisisResources : Option CrisisResources
  conversationId : String
  messageCount : Nat
  currentStep : Option Int
  stepName : Option String
deriving DecidableEq, Repr

/-- The responses of `POST /api/ai/chat`. -/
inductive ChatResponse where
  | badRequest
  | userNotFound
  | premiumRequired
  | unavailable (error fallbackMessage supportEmail : String)
  | success (body : ChatReply)
deriving DecidableEq, Repr

/-- The HTTP status of each chat response; a response sent with `res.json`
alone has status 200. -/
def ChatResponse.httpStatus : ChatResponse → Nat
  | .badRequest => 400
  | .userNotFound => 404
  | .premiumRequired => 403
  | .unavailable _ _ _ => 500
  | .success _ => 200

/-- The clock readings of one chat request, one field for each `Date.now()`
and `new Date()` of the handler, in the order of the source. The first five
are read before the call of the completion provider, the last three after
it. -/
structure ChatClock where
  conversationIdTime : Int
  sessionIdTime : Int
  startedAt : Int
  createdAt : Int
  userMessageTime : Int
  replyTime : Int
  lastMessageAt : Int
  lastActiveDate : Int
deriving DecidableEq, Repr

/-- The result of one chat request: the response, and the document handed to
`user.save()` when the handler reached that call. -/
structure ChatOutcome where
  response : ChatResponse
  saved : Option User
deriving DecidableEq, Repr

/-- The lookup `user.aiConversations.find(c => c.sessionId === sessionId)`; no
stored session id equals an absent `sessionId`. -/
def findConversation (conversations : List Conversation) (sessionId : Option String) :
    Option Conversation :=
  match sessionId with
  | none => none
  | some wanted => conversations.find? (fun c => c.sessionId == wanted)

/-- The object literal of lines 133-140; `sessionId || ...` takes the generated
id when `sessionId` is absent or empty. -/
def newConversation (sessionId : Option String) (context : UserContext) (clock : ChatClock) :
    Conversation :=
  { conversationId := "conv_" ++ toString clock.conversationIdTime
    sessionId :=
      match sessionId with
      | some wanted => if wanted = "" then "session_" ++ toString clock.sessionIdTime else wanted
      | none => "session_" ++ toString clock.sessionIdTime
    messages := []
    context := context
    startedAt := clock.startedAt
    lastMessageAt := clock.createdAt }

/-- The in-place mutation of the conversation returned by `find`: the first
conversation with the given session id is replaced by its image. -/
def updateConversation (sessionId : String) (change : Conversation → Conversation) :
    List Conversation → List Conversation
  | [] => []
  | c :: rest =>
    if c.sessionId == sessionId then change c :: rest
    else c :: updateConversation sessionId change rest

/-- The fallback text of line 216. -/
def fallbackMessage : String :=
  "I'm having trouble connecting right now. In the meantime, try reviewing your current step's resources, or join our next live group session for support. You can also email support@resentmentrelease.com for assistance."

/-- The object of lines 191-195. -/
def crisisResources : CrisisResources :=
  { suicidePreventionLifeline := "988"
    crisisTextLine := "Text HOME to 741741"
    message := "If you are in immediate danger, please call 911 or go to your nearest emergency room." }

/-- The handler of `POST /api/ai/chat` (lines 99-221). `completion` is the
text `response.content[0].text` of the completion provider, `none` when the
call throws. An absent or empty `message` or `userId` is falsy. -/
def chat (userId message sessionId : Option String) (found : Option User)
    (completion : Option String) (clock : ChatClock) : ChatOutcome :=
  match message, userId with
  | some text, some identity =>
    if text = "" ∨ identity = "" then { response := .badRequest, saved := none }
    else
      match found with
      | none => { response := .userNotFound, saved := none }
      | some user =>
        if !user.hasPremiumAccess then { response := .premiumRequired, saved := none }
        else
          let isCrisis := detectCrisis text
          let currentJourney := user.journeys.find? isActive
          let userContext := buildUserContext user currentJourney
          let existing := findConversation user.aiConversations sessionId
          let conversation := existing.getD (newConversation sessionId userContext clock)
          let asked : Conversation :=
            { conversation with
              messages := conversation.messages ++
                [{ role := Role.user, content := text, timestamp := clock.userMessageTime }] }
          match completion with
          | none =>
            { response := .unavailable "AI coach temporarily unavailable" fallbackMessage
                "support@resentmentrelease.com"
              saved := none }
          | some aiResponse =>
            let answered : Conversation :=
              { asked with
                messages := asked.messages ++
                  [{ role := Role.assistant, content := aiResponse,
                     timestamp := clock.replyTime }]
                lastMessageAt := clock.lastMessageAt }
            let conversations :=
              match existing, sessionId with
              | some _, some wanted =>
                updateConversation wanted (fun _ => answered) user.aiConversations
              | _, _ => user.aiConversations ++ [answered]
            let stats : Stats :=
              { user.stats with
                totalAIConversations :=
                  if answered.messages.length = 2 then user.stats.totalAIConversations + 1
                  else user.stats.totalAIConversations
                lastActiveDate := clock.lastActiveDate }
            { response := .success
                { message := aiResponse
                  sessionId := answered.sessionId
                  isCrisis := isCrisis
                  crisisResources := if isCrisis then some crisisResources else none
                  conversationId := answered.conversationId
                  messageCount := answered.messages.length
                  currentStep := currentJourney.bind (fun journey =>
                    if journey.currentStep = 0 then none else some journey.currentStep)
                  stepName := currentJourney.bind (fun journey => stepName journey.currentStep) }
              saved := some { user with aiConversations := conversations, stats := stats } }
  | _, _ => { response := .badRequest, saved := none }

/-- The stored document after one chat request. -/
def chatStored (stored : User) (userId message sessionId : Option String)
    (completion : Option String) (clock : ChatClock) : User :=
  (chat userId message sessionId (some stored) completion clock).saved.getD stored

/-- The UTF-16 code units of one character: the character itself in the basic
plane, a surrogate pair above it. -/
def utf16Units (c : Char) : List Nat :=
  if c.toNat < 65536 then [c.toNat]
  else [55296 + (c.toNat - 65536) / 1024, 56320 + (c.toNat - 65536) % 1024]

/-- A JavaScript string, as the list of its UTF-16 code units. -/
def utf16 (text : String) : List Nat :=
  text.toList.flatMap utf16Units

/-- One element of `conversations` in the response of the history handler; the
preview, which `substring` cuts by code units, is a list of UTF-16 code
units. -/
structure ConversationSummary where
  conversationId : String
  sessionId : String
  messageCount : Nat
  startedAt : Int
  lastMessageAt : Int
  preview : List Nat
deriving DecidableEq, Repr

/-- The filter stage of the history handler (lines 237-242): the filter is
applied when `sessionId` is present and not empty. -/
def filterBySession (conversations : List Conversation) (sessionId : Option String) :
    List Conversation :=
  match sessionId with
  | some wanted =>
    if wanted = "" then conversations
    else conversations.filter (fun c => c.sessionId == wanted)
  | none => conversations

/-- The call `conversations.sort((a, b) => b.lastMessageAt - a.lastMessageAt)`:
a stable sort, the most recent first. -/
def sortByRecency (conversations : List Conversation) : List Conversation :=
  conversations.insertionSort (fun a b => a.lastMessageAt ≥ b.lastMessageAt)

/-- The conversations that the history handler lists (lines 237-248). -/
def selectConversations (conversations : List Conversation) (sessionId : Option String) :
    List Conversation :=
  (sortByRecency (filterBySession conversations sessionId)).take 50

/-- The expression
`c.messages[c.messages.length - 1]?.content.substring(0, 100) + '...'`:
`substring(0, 100)` keeps the first 100 UTF-16 code units; without a last
message the left operand is `undefined`, which `+` turns into the text
"undefined". -/
def conversationPreview (c : Conversation) : List Nat :=
  match c.messages.getLast? with
  | some last => (utf16 last.content).take 100 ++ utf16 "..."
  | none => utf16 "undefined" ++ utf16 "..."

/-- The summary object of lines 252-259. -/
def summarize (c : Conversation) : ConversationSummary :=
  { conversationId := c.conversationId
    sessionId := c.sessionId
    messageCount := c.messages.length
    startedAt := c.startedAt
    lastMessageAt := c.lastMessageAt
    preview := conversationPreview c }

/-- The handler of `GET /api/ai/conversation-history/:userId` (lines 224-266). -/
def conversationHistory (found : Option User) (sessionId : Option String) :
    Except RouteError (List ConversationSummary) :=
  match found with
  | none => .error RouteError.userNotFound
  | some user =>
    if !user.hasPremiumAccess then .error RouteError.premiumRequired
    else .ok ((selectConversations user.aiConversations sessionId).map summarize)

/-- A premium user with one conversation of two messages. -/
def chattingUser : User :=
  { freshUser true with
    aiConversations :=
      [{ conversationId := "conv_1"
         sessionId := "s1"
         messages :=
           [{ role := Role.user, content := "hello", timestamp := 10 },
            { role := Role.assistant, content := "welcome", timestamp := 20 }]
         context := buildUserContext (freshUser true) none
         startedAt := 10
         lastMessageAt := 21 }] }

/-- Clock readings of a chat request in which the clock moves on between the
stamp of the reply and the stamp of `lastMessageAt`. -/
def tickingClock : ChatClock :=
  { conversationIdTime := 1000, sessionIdTime := 1000, startedAt := 1000, createdAt := 1000,
    userMessageTime := 1000, replyTime := 2000, lastMessageAt := 2001, lastActiveDate := 2001 }

/-- A premium user with a conversation that holds no message. -/
def emptyThreadUser : User :=
  { freshUser true with
    aiConversations :=
      [{ conversationId := "conv_1"
         sessionId := "s1"
         messages := []
         context := buildUserContext (freshUser true) none
         startedAt := 10
         lastMessageAt := 10 }] }

/-! ## Shared lemmas on the embedding -/

theorem applyStep_journeyNumber (journey : Journey) (stats : Stats) (stepNumber : Int)
    (completed : Bool) (now : Int) :
    (applyStep journey stats stepNumber completed now).1.journeyNumber
      = journey.journeyNumber := by
  simp only [applyStep]
  split_ifs <;> rfl

theorem applyStep_started (journey : Journey) (stats : Stats) (stepNumber : Int)
    (completed : Bool) (now : Int) :
    (applyStep journey stats stepNumber completed now).2.totalJourneysStarted
      = stats.totalJourneysStarted := by
  simp only [applyStep]
  split_ifs <;> rfl

theorem findJourney_number {journeys : List Journey} {journeyNumber : Int} {journey : Journey}
    (h : findJourney journeys journeyNumber = some journey) :
    journey.journeyNumber = journeyNumber := by
  have := List.find?_some h
  simpa using this

theorem map_number_updateJourney (journeyNumber : Int) (change : Journey → Journey)
    (hchange : ∀ j, j.journeyNumber = journeyNumber → (change j).journeyNumber = journeyNumber)
    (journeys : List Journey) :
    (updateJourney journeyNumber change journeys).map (fun j => j.journeyNumber)
      = journeys.map (fun j => j.journeyNumber) := by
  induction journeys with
  | nil => rfl
  | cons j rest ih =>
    unfold updateJourney
    by_cases hj : j.journeyNumber = journeyNumber
    · simp [hj, hchange j hj]
    · simp [hj, ih]

theorem length_updateJourney (journeyNumber : Int) (change : Journey → Journey)
    (journeys : List Journey) :
    (updateJourney journeyNumber change journeys).length = journeys.length := by
  induction journeys with
  | nil => rfl
  | cons j rest ih =>
    unfold updateJourney
    by_cases hj : j.journeyNumber = journeyNumber
    · simp [hj]
    · simp [hj, ih]

/-- Every request either keeps the journey numbers and the started counter, or
is a successful start that appends the number `totalJourneysStarted + 1` and
adds one to the counter. -/
theorem applyOp_numbers (user : User) (op : JourneyOp) :
    ((applyOp user op).journeys.map (fun j => j.journeyNumber)
        = user.journeys.map (fun j => j.journeyNumber) ∧
      (applyOp user op).stats.totalJourneysStarted = user.stats.totalJourneysStarted) ∨
    ((applyOp user op).journeys.map (fun j => j.journeyNumber)
        = user.journeys.map (fun j => j.journeyNumber) ++ [user.stats.totalJourneysStarted + 1] ∧
      (applyOp user op).stats.totalJourneysStarted = user.stats.totalJourneysStarted + 1) := by
  cases op with
  | start d now =>
    by_cases hgate : (!user.hasPremiumAccess && decide (activeJourneys user ≥ 1)) = true
    · left; simp [applyOp, startJourney, hgate]
    · right; simp [applyOp, startJourney, hgate, newJourney]
  | step n s c now =>
    left
    cases hf : findJourney user.journeys n with
    | none => simp [applyOp, updateJourneyStep, hf]
    | some j =>
      simp only [applyOp, updateJourneyStep, hf]
      refine ⟨map_number_updateJourney n _ (fun _ _ => ?_) _, applyStep_started _ _ _ _ _⟩
      rw [applyStep_journeyNumber]; exact findJourney_number hf
  | pause n =>
    left
    cases hf : findJourney user.journeys n with
    | none => simp [applyOp, pauseJourney, hf]
    | some j =>
      simp only [applyOp, pauseJourney, hf]
      refine ⟨map_number_updateJourney n _ (fun _ h => ?_) _, trivial⟩
      exact h
  | resume n now =>
    left
    cases hf : findJourney user.journeys n with
    | none => simp [applyOp, resumeJourney, hf]
    | some j =>
      simp only [applyOp, resumeJourney, hf]
      refine ⟨map_number_updateJourney n _ (fun _ h => ?_) _, trivial⟩
      exact h

/-- The journey numbers of a run from an empty journey list with the counter at
zero are `1, 2, ..., n` in list order, and the counter is `n`. -/
theorem runOps_numbers (ops : List JourneyOp) (user : User)
    (hnumbers : user.journeys.map (fun j => j.journeyNumber)
      = (List.range' 1 user.journeys.length).map (fun k : Nat => (k : Int)))
    (hcount : user.stats.totalJourneysStarted = user.journeys.length) :
    (runOps user ops).journeys.map (fun j => j.journeyNumber)
      = (List.range' 1 (runOps user ops).journeys.length).map (fun k : Nat => (k : Int)) ∧
    (runOps user ops).stats.totalJourneysStarted = (runOps user ops).journeys.length := by
  induction ops generalizing user with
  | nil => exact ⟨hnumbers, hcount⟩
  | cons op rest ih =>
    have hlen : ∀ u : User, u.journeys.length
        = (u.journeys.map (fun j => j.journeyNumber)).length := fun u => by simp
    show (runOps (applyOp user op) rest).journeys.map _ = _ ∧ _
    apply ih
    · rcases applyOp_numbers user op with ⟨h1, _⟩ | ⟨h1, _⟩
      · rw [hlen (applyOp user op), h1, ← hlen user]; exact hnumbers
      · rw [hlen (applyOp user op), h1, List.length_append, ← hlen user, hnumbers, hcount]
        simp [List.range'_concat]
        omega
    · rcases applyOp_numbers user op with ⟨h1, h2⟩ | ⟨h1, h2⟩
      · rw [hlen (applyOp user op), h1, ← hlen user, h2]; exact hcount
      · rw [hlen (applyOp user op), h1, h2, hcount]; simp

/-- A successful start returns the new journey literal and the document with
that journey pushed and the counter raised. -/
theorem startJourney_ok {user saved : User} {created : Journey}
    {resentmentDescription : String} {now : Int}
    (hok : startJourney (some user) resentmentDescription now = .ok (saved, created)) :
    created = newJourney (user.stats.totalJourneysStarted + 1) resentmentDescription now ∧
    saved.journeys = user.journeys ++ [created] ∧
    saved.stats.totalJourneysStarted = user.stats.totalJourneysStarted + 1 := by
  by_cases hgate : (!user.hasPremiumAccess && decide (activeJourneys user ≥ 1)) = true
  · simp [startJourney, hgate] at hok
  · simp only [startJourney, hgate] at hok
    injection hok with hok
    injection hok with hsaved hcreated
    subst hsaved hcreated
    exact ⟨rfl, rfl, rfl⟩

/-- The started counter never decreases along a run. -/
theorem runOps_started_mono (ops : List JourneyOp) (user : User) :
    user.stats.totalJourneysStarted ≤ (runOps user ops).stats.totalJourneysStarted := by
  induction ops generalizing user with
  | nil => exact le_refl _
  | cons op rest ih =>
    have hstep : user.stats.totalJourneysStarted
        ≤ (applyOp user op).stats.totalJourneysStarted := by
      rcases applyOp_numbers user op with ⟨_, h⟩ | ⟨_, h⟩ <;> omega
    exact le_trans hstep (ih (applyOp user op))

theorem mem_sortAscending {steps : List Int} {x : Int} :
    x ∈ sortAscending steps ↔ x ∈ steps :=
  (List.perm_insertionSort _ steps).mem_iff

theorem length_sortAscending (steps : List Int) :
    (sortAscending steps).length = steps.length :=
  List.length_insertionSort _ steps

/-- The completed steps after one step-update request. -/
theorem applyStep_completedSteps (journey : Journey) (stats : Stats) (stepNumber : Int)
    (completed : Bool) (now : Int) :
    (applyStep journey stats stepNumber completed now).1.completedSteps
      = if completed = true ∧ stepNumber ∉ journey.completedSteps then
          sortAscending (journey.completedSteps ++ [stepNumber])
        else journey.completedSteps := by
  unfold applyStep
  dsimp only
  by_cases hc : completed = true
  · by_cases hs : stepNumber ∈ journey.completedSteps
    · simp only [hc, hs, if_true, not_true, and_false, if_false]
      split_ifs <;> rfl
    · simp only [hc, hs, if_true, if_false, not_false_eq_true, and_self]
      split_ifs <;> rfl
  · simp [hc]

/-- The current step after one request that marks a step completed. -/
theorem applyStep_currentStep (journey : Journey) (stats : Stats) (stepNumber : Int)
    (now : Int) :
    (applyStep journey stats stepNumber true now).1.currentStep
      = if stepNumber = journey.currentStep ∧ stepNumber < 7 then stepNumber + 1
        else journey.currentStep := by
  unfold applyStep
  dsimp only
  by_cases hs : stepNumber ∈ journey.completedSteps
  · simp only [hs, if_true]
    split_ifs <;> rfl
  · simp only [hs, if_true, if_false]
    split_ifs <;> rfl

/-- An element of the completed steps after one request was there before or
is the step number the request marked completed. -/
theorem applyStep_mem {journey : Journey} {stats : Stats} {stepNumber : Int}
    {completed : Bool} {now : Int} {x : Int}
    (hx : x ∈ (applyStep journey stats stepNumber completed now).1.completedSteps) :
    x ∈ journey.completedSteps ∨ (completed = true ∧ x = stepNumber) := by
  rw [applyStep_completedSteps] at hx
  split_ifs at hx with h
  · rw [mem_sortAscending, List.mem_append] at hx
    rcases hx with hx | hx
    · exact Or.inl hx
    · exact Or.inr ⟨h.1, by simpa using hx⟩
  · exact Or.inl hx

/-- A journey of the list after `updateJourney` is a journey of the list
before, or the image of one with the given number. -/
theorem mem_updateJourney {journeyNumber : Int} {change : Journey → Journey}
    {journeys : List Journey} {j : Journey}
    (hj : j ∈ updateJourney journeyNumber change journeys) :
    j ∈ journeys ∨ ∃ old ∈ journeys, old.journeyNumber = journeyNumber ∧ j = change old := by
  induction journeys with
  | nil => simp [updateJourney] at hj
  | cons head rest ih =>
    unfold updateJourney at hj
    by_cases hhead : head.journeyNumber = journeyNumber
    · simp only [hhead, beq_self_eq_true, if_true, List.mem_cons] at hj
      rcases hj with hj | hj
      · exact Or.inr ⟨head, List.mem_cons_self _ _, hhead, hj⟩
      · exact Or.inl (List.mem_cons_of_mem _ hj)
    · have hne : (head.journeyNumber == journeyNumber) = false := by simpa using hhead
      simp only [hne, Bool.false_eq_true, if_false, List.mem_cons] at hj
      rcases hj with hj | hj
      · exact Or.inl (hj ▸ List.mem_cons_self _ _)
      · rcases ih hj with h | ⟨old, hold, hnum, heq⟩
        · exact Or.inl (List.mem_cons_of_mem _ h)
        · exact Or.inr ⟨old, List.mem_cons_of_mem _ hold, hnum, heq⟩

theorem findJourney_mem {journeys : List Journey} {journeyNumber : Int} {journey : Journey}
    (h : findJourney journeys journeyNumber = some journey) : journey ∈ journeys :=
  List.mem_of_find?_eq_some h

/-- The lookup after `updateJourney` with the same number returns the image of
what the lookup returned before, when the change keeps the journey number. -/
theorem findJourney_updateJourney (journeyNumber : Int) (change : Journey → Journey)
    (hchange : ∀ j, j.journeyNumber = journeyNumber → (change j).journeyNumber = journeyNumber)
    (journeys : List Journey) :
    findJourney (updateJourney journeyNumber change journeys) journeyNumber
      = (findJourney journeys journeyNumber).map change := by
  induction journeys with
  | nil => rfl
  | cons head rest ih =>
    unfold updateJourney
    by_cases hhead : head.journeyNumber = journeyNumber
    · simp [findJourney, hhead, hchange head hhead]
    · have ih2 := ih
      simp only [findJourney] at ih2 ⊢
      simp [hhead, ih2]

/-- A completed step of a journey after one request was a completed step of a
journey before the request, or is the step number of this request, which
marked it completed. -/
theorem applyOp_completedSteps_mem {user : User} {op : JourneyOp} {j : Journey} {x : Int}
    (hj : j ∈ (applyOp user op).journeys) (hx : x ∈ j.completedSteps) :
    (∃ old ∈ user.journeys, x ∈ old.completedSteps) ∨
    (∃ n now, op = .step n x true now) := by
  cases op with
  | start d now =>
    by_cases hgate : (!user.hasPremiumAccess && decide (activeJourneys user ≥ 1)) = true
    · simp only [applyOp, startJourney, hgate, if_true] at hj
      exact Or.inl ⟨j, hj, hx⟩
    · have hj2 : j ∈ user.journeys ++ [newJourney (user.stats.totalJourneysStarted + 1) d now] := by
        simpa only [applyOp, startJourney, hgate] using hj
      rcases List.mem_append.1 hj2 with hj3 | hj3
      · exact Or.inl ⟨j, hj3, hx⟩
      · rw [List.mem_singleton.1 hj3] at hx
        simp [newJourney] at hx
  | step n s c now =>
    cases hf : findJourney user.journeys n with
    | none =>
      simp only [applyOp, updateJourneyStep, hf] at hj
      exact Or.inl ⟨j, hj, hx⟩
    | some found =>
      simp only [applyOp, updateJourneyStep, hf] at hj
      rcases mem_updateJourney hj with hj | ⟨old, _, _, hj⟩
      · exact Or.inl ⟨j, hj, hx⟩
      · subst hj
        rcases applyStep_mem hx with hxo | ⟨hc, hxs⟩
        · exact Or.inl ⟨found, findJourney_mem hf, hxo⟩
        · subst hc
          subst hxs
          exact Or.inr ⟨n, now, rfl⟩
  | pause n =>
    cases hf : findJourney user.journeys n with
    | none =>
      simp only [applyOp, pauseJourney, hf] at hj
      exact Or.inl ⟨j, hj, hx⟩
    | some found =>
      simp only [applyOp, pauseJourney, hf] at hj
      rcases mem_updateJourney hj with hj | ⟨old, hold, _, hj⟩
      · exact Or.inl ⟨j, hj, hx⟩
      · subst hj
        exact Or.inl ⟨old, hold, hx⟩
  | resume n now =>
    cases hf : findJourney user.journeys n with
    | none =>
      simp only [applyOp, resumeJourney, hf] at hj
      exact Or.inl ⟨j, hj, hx⟩
    | some found =>
      simp only [applyOp, resumeJourney, hf] at hj
      rcases mem_updateJourney hj with hj | ⟨old, hold, _, hj⟩
      · exact Or.inl ⟨j, hj, hx⟩
      · subst hj
        exact Or.inl ⟨old, hold, hx⟩

/-- The status, the completion date and the completed counter after one
step-update request: all three change exactly when the request marks a step
completed and leaves seven completed steps. -/
theorem applyStep_completion (journey : Journey) (stats : Stats) (stepNumber : Int)
    (completed : Bool) (now : Int) :
    (completed = true ∧
        (applyStep journey stats stepNumber completed now).1.completedSteps.length = 7 →
      (applyStep journey stats stepNumber completed now).1.status = JourneyStatus.completed ∧
      (applyStep journey stats stepNumber completed now).1.completedDate = some now ∧
      (applyStep journey stats stepNumber completed now).2.totalJourneysCompleted
        = stats.totalJourneysCompleted + 1) ∧
    (¬ (completed = true ∧
        (applyStep journey stats stepNumber completed now).1.completedSteps.length = 7) →
      (applyStep journey stats stepNumber completed now).1.status = journey.status ∧
      (applyStep journey stats stepNumber completed now).1.completedDate
        = journey.completedDate ∧
      (applyStep journey stats stepNumber completed now).2.totalJourneysCompleted
        = stats.totalJourneysCompleted) := by
  unfold applyStep
  dsimp only
  cases completed
  · simp
  · by_cases hs : stepNumber ∈ journey.completedSteps
    · simp only [hs, if_true]
      split_ifs <;> simp_all
    · simp only [hs, if_false]
      split_ifs <;> simp_all

theorem sortAscending_sorted (steps : List Int) :
    (sortAscending steps).Sorted (fun a b => a ≤ b) :=
  List.sorted_insertionSort _ steps

theorem runSteps_cons (journey : Journey) (stats : Stats) (r : StepRequest)
    (rest : List StepRequest) :
    runSteps journey stats (r :: rest)
      = runSteps (applyStep journey stats r.stepNumber r.completed r.now).1
          (applyStep journey stats r.stepNumber r.completed r.now).2 rest := rfl

/-- One step-update request keeps the three facts: the status is completed
exactly when there are at least seven completed steps, exactly when the
completion date is set, and the completed steps have no repetition. -/
theorem applyStep_completion_inv (journey : Journey) (stats : Stats) (stepNumber : Int)
    (completed : Bool) (now : Int)
    (hlen : journey.status = JourneyStatus.completed ↔ 7 ≤ journey.completedSteps.length)
    (hdate : journey.status = JourneyStatus.completed ↔ journey.completedDate.isSome = true)
    (hnodup : journey.completedSteps.Nodup) :
    ((applyStep journey stats stepNumber completed now).1.status = JourneyStatus.completed ↔
      7 ≤ (applyStep journey stats stepNumber completed now).1.completedSteps.length) ∧
    ((applyStep journey stats stepNumber completed now).1.status = JourneyStatus.completed ↔
      (applyStep journey stats stepNumber completed now).1.completedDate.isSome = true) ∧
    (applyStep journey stats stepNumber completed now).1.completedSteps.Nodup := by
  obtain ⟨hfire, hkeep⟩ := applyStep_completion journey stats stepNumber completed now
  have hsteps := applyStep_completedSteps journey stats stepNumber completed now
  have hnodup2 : (applyStep journey stats stepNumber completed now).1.completedSteps.Nodup := by
    rw [hsteps]
    split_ifs with h
    · have hperm : (sortAscending (journey.completedSteps ++ [stepNumber])).Perm
          (journey.completedSteps ++ [stepNumber]) := List.perm_insertionSort _ _
      rw [hperm.nodup_iff, List.nodup_append]
      refine ⟨hnodup, List.nodup_singleton _, ?_⟩
      intro a ha hb
      rw [List.mem_singleton] at hb
      exact h.2 (hb ▸ ha)
    · exact hnodup
  have hlength : (applyStep journey stats stepNumber completed now).1.completedSteps.length
        = journey.completedSteps.length ∨
      (applyStep journey stats stepNumber completed now).1.completedSteps.length
        = journey.completedSteps.length + 1 := by
    rw [hsteps]
    split_ifs
    · right; rw [length_sortAscending]; simp
    · left; rfl
  by_cases hc : completed = true ∧
      (applyStep journey stats stepNumber completed now).1.completedSteps.length = 7
  · obtain ⟨hst, hd, _⟩ := hfire hc
    refine ⟨?_, ?_, hnodup2⟩
    · rw [hst, hc.2]; simp
    · rw [hst, hd]; simp
  · obtain ⟨hst, hd, _⟩ := hkeep hc
    refine ⟨?_, ?_, hnodup2⟩
    · rw [hst, hlen]
      by_cases hcompleted : completed = true
      · have hne : (applyStep journey stats stepNumber completed now).1.completedSteps.length
            ≠ 7 := fun h => hc ⟨hcompleted, h⟩
        rcases hlength with h | h <;> omega
      · have : (applyStep journey stats stepNumber completed now).1.completedSteps
            = journey.completedSteps := by
          rw [hsteps]; simp [hcompleted]
        rw [this]
    · rw [hst, hd]; exact hdate

/-- A step-update request leaves a completed journey completed. -/
theorem applyStep_status_completed (journey : Journey) (stats : Stats) (stepNumber : Int)
    (completed : Bool) (now : Int) (hdone : journey.status = JourneyStatus.completed) :
    (applyStep journey stats stepNumber completed now).1.status = JourneyStatus.completed := by
  obtain ⟨hfire, hkeep⟩ := applyStep_completion journey stats stepNumber completed now
  by_cases hc : completed = true ∧
      (applyStep journey stats stepNumber completed now).1.completedSteps.length = 7
  · exact (hfire hc).1
  · rw [(hkeep hc).1]; exact hdone

/-- When the lookup finds a record, the list splits around it, no earlier
record has the id, and `updateResource` changes that record alone. -/
theorem updateResource_split {resources : List CompletedResource} {resourceId : String}
    {record : CompletedResource} (change : CompletedResource → CompletedResource)
    (hfind : findResource resources resourceId = some record) :
    ∃ before after, resources = before ++ record :: after ∧
      record.resourceId = resourceId ∧
      (∀ r ∈ before, r.resourceId ≠ resourceId) ∧
      updateResource resourceId change resources = before ++ change record :: after := by
  induction resources with
  | nil => simp [findResource] at hfind
  | cons head rest ih =>
    by_cases hhead : head.resourceId = resourceId
    · have : head = record := by simpa [findResource, hhead] using hfind
      subst this
      exact ⟨[], rest, rfl, hhead, by simp, by simp [updateResource, hhead]⟩
    · have hrest : findResource rest resourceId = some record := by
        simpa [findResource, hhead] using hfind
      obtain ⟨before, after, hsplit, hid, hbefore, hupdate⟩ := ih hrest
      refine ⟨head :: before, after, by simp [hsplit], hid, ?_, ?_⟩
      · intro r hr
        rcases List.mem_cons.1 hr with h | h
        · exact h ▸ hhead
        · exact hbefore r h
      · simp [updateResource, hhead, hupdate]

/-- When the lookup finds nothing, no record has the id. -/
theorem findResource_none {resources : List CompletedResource} {resourceId : String}
    (hfind : findResource resources resourceId = none) :
    ∀ r ∈ resources, r.resourceId ≠ resourceId := by
  intro r hr
  have := List.find?_eq_none.1 hfind r hr
  simpa using this

theorem findResource_append_new (resources : List CompletedResource)
    (record : CompletedResource)
    (hfind : findResource resources record.resourceId = none) :
    findResource (resources ++ [record]) record.resourceId = some record := by
  unfold findResource at hfind ⊢
  rw [List.find?_append, hfind]
  simp

theorem updateResource_append_new (resources : List CompletedResource)
    (record : CompletedResource) (change : CompletedResource → CompletedResource)
    (hnot : ∀ r ∈ resources, r.resourceId ≠ record.resourceId) :
    updateResource record.resourceId change (resources ++ [record])
      = resources ++ [change record] := by
  induction resources with
  | nil => simp [updateResource]
  | cons head rest ih =>
    have hhead : head.resourceId ≠ record.resourceId := hnot head (List.mem_cons_self _ _)
    have hrest := ih (fun r hr => hnot r (List.mem_cons_of_mem _ hr))
    simp [updateResource, hhead, hrest]

theorem ceilDiv_eq_ceil (a b : Int) (hb : 0 < b) :
    ceilDiv a b = ⌈(a : ℚ) / (b : ℚ)⌉ := by
  unfold ceilDiv
  symm
  rw [Int.ceil_eq_iff]
  have hbq : (0 : ℚ) < b := by exact_mod_cast hb
  constructor
  · rw [lt_div_iff₀ hbq]
    have h1 : -a < ((-a) / b + 1) * b := by
      have := Int.lt_ediv_add_one_mul_self (-a) hb
      linarith
    have : (((-(-a / b) - 1) * b : Int) : ℚ) < (a : ℚ) := by
      exact_mod_cast (by nlinarith : (-(-a / b) - 1) * b < a)
    push_cast at this ⊢
    linarith
  · rw [div_le_iff₀ hbq]
    have h2 : (-a) / b * b ≤ -a := Int.ediv_mul_le (-a) (ne_of_gt hb)
    have : ((a : Int) : ℚ) ≤ ((-(-a / b) * b : Int) : ℚ) := by
      exact_mod_cast (by nlinarith : a ≤ -(-a / b) * b)
    push_cast at this ⊢
    linarith

theorem roundDiv_eq_floor (a b : Int) (hb : 0 < b) :
    roundDiv a b = ⌊(a : ℚ) / (b : ℚ) + 1 / 2⌋ := by
  unfold roundDiv
  symm
  rw [Int.floor_eq_iff]
  have hbq : (0 : ℚ) < b := by exact_mod_cast hb
  have h2b : (0 : Int) < 2 * b := by omega
  have hlow : (2 * a + b) / (2 * b) * (2 * b) ≤ 2 * a + b :=
    Int.ediv_mul_le _ (ne_of_gt h2b)
  have hhigh : 2 * a + b < ((2 * a + b) / (2 * b) + 1) * (2 * b) :=
    Int.lt_ediv_add_one_mul_self _ h2b
  have hlowq : ((((2 * a + b) / (2 * b) * (2 * b) : Int)) : ℚ) ≤ ((2 * a + b : Int) : ℚ) := by
    exact_mod_cast hlow
  have hhighq : ((2 * a + b : Int) : ℚ) < ((((2 * a + b) / (2 * b) + 1) * (2 * b) : Int) : ℚ) := by
    exact_mod_cast hhigh
  push_cast at hlowq hhighq
  have hdiv : (a : ℚ) / b + 1 / 2 = (2 * a + b) / (2 * b) := by
    field_simp
    ring
  rw [hdiv]
  constructor
  · rw [le_div_iff₀ (by linarith)]
    linarith
  · rw [div_lt_iff₀ (by linarith)]
    linarith

theorem totalDays_of_days (journeys : List Journey) (days : List Int)
    (hdays : journeys.map completionDays = days.map some) :
    totalDays journeys = some days.sum := by
  have key : ∀ (journeys : List Journey) (days : List Int) (acc : Int),
      journeys.map completionDays = days.map some →
      journeys.foldl
        (fun sum j => sum.bind (fun s => (completionDays j).map (fun d => s + d))) (some acc)
        = some (acc + days.sum) := by
    intro journeys
    induction journeys with
    | nil =>
      intro days acc h
      cases days with
      | nil => simp
      | cons d rest => simp at h
    | cons j rest ih =>
      intro days acc h
      cases days with
      | nil => simp at h
      | cons d restDays =>
        simp only [List.map_cons, List.cons.injEq] at h
        simp only [List.foldl_cons, h.1, Option.map_some', List.sum_cons]
        show List.foldl _ (some (acc + d)) rest = _
        rw [ih restDays (acc + d) h.2]
        congr 1
        ring
  have := key journeys days 0 hdays
  simpa [totalDays] using this

theorem sum_between (days : List Int) (lo hi : Int)
    (hbounds : ∀ d ∈ days, lo ≤ d ∧ d ≤ hi) :
    (days.length : Int) * lo ≤ days.sum ∧ days.sum ≤ (days.length : Int) * hi := by
  induction days with
  | nil => simp
  | cons d rest ih =>
    obtain ⟨h1, h2⟩ := ih (fun x hx => hbounds x (List.mem_cons_of_mem _ hx))
    obtain ⟨h3, h4⟩ := hbounds d (List.mem_cons_self _ _)
    simp only [List.length_cons, List.sum_cons]
    push_cast
    constructor <;> nlinarith

theorem roundDiv_between (total n lo hi : Int) (hn : 0 < n)
    (hlo : n * lo ≤ total) (hhi : total ≤ n * hi) :
    lo ≤ roundDiv total n ∧ roundDiv total n ≤ hi := by
  unfold roundDiv
  have h2n : (0 : Int) < 2 * n := by omega
  constructor
  · rw [Int.le_ediv_iff_mul_le h2n]
    nlinarith
  · have : (2 * total + n) / (2 * n) < hi + 1 := by
      rw [Int.ediv_lt_iff_lt_mul h2n]
      nlinarith
    omega

theorem startsWith_iff (text search : List Char) :
    startsWith text search = true ↔ ∃ rest, text = search ++ rest := by
  induction search generalizing text with
  | nil => simp [startsWith]
  | cons k search ih =>
    cases text with
    | nil => simp [startsWith]
    | cons c text =>
      simp only [startsWith, Bool.and_eq_true, beq_iff_eq, ih, List.cons_append,
        List.cons.injEq]
      constructor
      · rintro ⟨hc, rest, hrest⟩
        exact ⟨rest, hc, hrest⟩
      · rintro ⟨rest, hc, hrest⟩
        exact ⟨hc, rest, hrest⟩

theorem includes_iff (text search : List Char) :
    includes text search = true ↔ ∃ before after, text = before ++ search ++ after := by
  induction text with
  | nil =>
    simp only [includes, startsWith_iff]
    constructor
    · rintro ⟨rest, h⟩
      exact ⟨[], rest, by simpa using h⟩
    · rintro ⟨before, after, h⟩
      have h1 : before ++ search ++ after = [] := h.symm
      simp only [List.append_eq_nil] at h1
      exact ⟨[], by simp [h1.1.2]⟩
  | cons c text ih =>
    simp only [includes, Bool.or_eq_true, startsWith_iff, ih]
    constructor
    · rintro (⟨rest, h⟩ | ⟨before, after, h⟩)
      · exact ⟨[], rest, by simpa using h⟩
      · exact ⟨c :: before, after, by simp [h]⟩
    · rintro ⟨before, after, h⟩
      cases before with
      | nil => exact Or.inl ⟨after, by simpa using h⟩
      | cons b before =>
        simp only [List.cons_append, List.cons.injEq] at h
        exact Or.inr ⟨before, after, by simpa using h.2⟩

/-- The test of `detectCrisis` in terms of substrings. -/
theorem detectCrisis_iff (message : String) :
    detectCrisis message = true ↔
      ∃ keyword ∈ CRISIS_KEYWORDS, ∃ before after,
        toLowerCase message = before ++ keyword.toList ++ after := by
  simp only [detectCrisis, detectCrisisWith, List.any_eq_true, includes_iff]

/-- The characters of an ASCII message are below 128. -/
theorem isAscii_iff (message : String) :
    isAscii message = true ↔ ∀ c ∈ message.toList, c.toNat < 128 := by
  simp [isAscii]

/-- Upper-casing an ASCII character does not change its lower-case form. -/
theorem toLower_toUpper_ascii (c : Char) (hc : c.toNat < 128) :
    Char.toLower (Char.toUpper c) = Char.toLower c := by
  have hall : ∀ n, n < 128 →
      Char.toLower (Char.toUpper (Char.ofNat n)) = Char.toLower (Char.ofNat n) := by
    decide
  have := hall c.toNat hc
  rwa [Char.ofNat_toNat] at this

/-- Two ASCII messages with the same upper-cased characters have the same
lower-cased characters. -/
theorem toLowerCase_of_same_upper (first second : String)
    (hfirst : isAscii first = true) (hsecond : isAscii second = true)
    (hupper : first.toList.map Char.toUpper = second.toList.map Char.toUpper) :
    toLowerCase first = toLowerCase second := by
  have key : ∀ text : String, isAscii text = true →
      toLowerCase text = (text.toList.map Char.toUpper).map Char.toLower := by
    intro text htext
    rw [List.map_map]
    apply List.map_congr_left
    intro c hc
    exact (toLower_toUpper_ascii c ((isAscii_iff text).1 htext c hc)).symm
  rw [key first hfirst, key second hsecond, hupper]

/-- A successful chat response comes from a request with a message and a
user id that are not empty, a user that exists and has premium access, and a
completion that was returned. -/
theorem chat_success_inv {userId message sessionId : Option String} {found : Option User}
    {completion : Option String} {clock : ChatClock} {body : ChatReply}
    (hsuccess : (chat userId message sessionId found completion clock).response
      = .success body) :
    ∃ text identity user reply, message = some text ∧ userId = some identity ∧
      text ≠ "" ∧ identity ≠ "" ∧ found = some user ∧ user.hasPremiumAccess = true ∧
      completion = some reply := by
  cases message with
  | none => simp [chat] at hsuccess
  | some text =>
    cases userId with
    | none => simp [chat] at hsuccess
    | some identity =>
      by_cases hempty : text = "" ∨ identity = ""
      · simp [chat, hempty] at hsuccess
      · cases found with
        | none => simp [chat, hempty] at hsuccess
        | some user =>
          cases hpremium : user.hasPremiumAccess with
          | false => simp [chat, hempty, hpremium] at hsuccess
          | true =>
            cases completion with
            | none => simp [chat, hempty, hpremium] at hsuccess
            | some reply =>
              push_neg at hempty
              exact ⟨text, identity, user, reply, rfl, rfl, hempty.1, hempty.2, rfl, hpremium, rfl⟩

/-- A chat request that saves the document answers with a successful
response. -/
theorem chat_saved_inv {userId message sessionId : Option String} {found : Option User}
    {completion : Option String} {clock : ChatClock} {saved : User}
    (hsaved : (chat userId message sessionId found completion clock).saved = some saved) :
    ∃ body, (chat userId message sessionId found completion clock).response
      = .success body := by
  cases message with
  | none => simp [chat] at hsaved
  | some text =>
    cases userId with
    | none => simp [chat] at hsaved
    | some identity =>
      by_cases hempty : text = "" ∨ identity = ""
      · simp [chat, hempty] at hsaved
      · cases found with
        | none => simp [chat, hempty] at hsaved
        | some user =>
          cases hpremium : user.hasPremiumAccess with
          | false => simp [chat, hempty, hpremium] at hsaved
          | true =>
            cases completion with
            | none => simp [chat, hempty, hpremium] at hsaved
            | some reply => simp [chat, hempty, hpremium]

/-- The outcome of a chat request that passes every check and whose
completion is returned: the crisis fields of the response and the
conversations of the saved document. -/
theorem chat_success (text identity : String) (sessionId : Option String) (user : User)
    (reply : String) (clock : ChatClock) (previous written : Conversation)
    (htext : text ≠ "") (hidentity : identity ≠ "") (hpremium : user.hasPremiumAccess = true)
    (hprevious : previous = (findConversation user.aiConversations sessionId).getD
      (newConversation sessionId (buildUserContext user (user.journeys.find? isActive)) clock))
    (hwritten : written = { previous with
      messages := previous.messages ++
        [{ role := Role.user, content := text, timestamp := clock.userMessageTime },
         { role := Role.assistant, content := reply, timestamp := clock.replyTime }]
      lastMessageAt := clock.lastMessageAt }) :
    ∃ body saved, chat (some identity) (some text) sessionId (some user) (some reply) clock
        = { response := .success body, saved := some saved } ∧
      body.isCrisis = detectCrisis text ∧
      body.crisisResources = (if detectCrisis text then some crisisResources else none) ∧
      (findConversation user.aiConversations sessionId = none →
        saved.aiConversations = user.aiConversations ++ [written]) ∧
      (∀ wanted, sessionId = some wanted →
        findConversation user.aiConversations sessionId ≠ none →
        saved.aiConversations
          = updateConversation wanted (fun _ => written) user.aiConversations) := by
  subst hwritten hprevious
  simp only [chat, htext, hidentity, hpremium, or_self, if_false, Bool.not_true,
    Bool.false_eq_true, List.append_assoc, List.singleton_append]
  refine ⟨_, _, rfl, rfl, rfl, ?_, ?_⟩
  · intro hnone
    simp only [hnone]
  · intro wanted hwanted hfound
    subst hwanted
    cases hfind : findConversation user.aiConversations (some wanted) with
    | none => exact absurd hfind hfound
    | some thread => rfl

/-- When the lookup finds a conversation, the list splits around it and
`updateConversation` changes that conversation alone. -/
theorem updateConversation_split {conversations : List Conversation} {wanted : String}
    {thread : Conversation} (change : Conversation → Conversation)
    (hfind : findConversation conversations (some wanted) = some thread) :
    ∃ before after, conversations = before ++ thread :: after ∧
      thread.sessionId = wanted ∧
      updateConversation wanted change conversations = before ++ change thread :: after := by
  induction conversations with
  | nil => simp [findConversation] at hfind
  | cons head rest ih =>
    by_cases hhead : head.sessionId = wanted
    · have : head = thread := by simpa [findConversation, hhead] using hfind
      subst this
      exact ⟨[], rest, rfl, hhead, by simp [updateConversation, hhead]⟩
    · have hrest : findConversation rest (some wanted) = some thread := by
        simpa [findConversation, hhead] using hfind
      obtain ⟨before, after, hsplit, hid, hupdate⟩ := ih hrest
      exact ⟨head :: before, after, by simp [hsplit], hid,
        by simp [updateConversation, hhead, hupdate]⟩

/-- A message that contains a phrase of `CRISIS_KEYWORDS`, itself in lower
case, is detected. -/
theorem detectCrisis_of_contains (text : String) (keyword : String)
    (hkeyword : keyword ∈ CRISIS_KEYWORDS)
    (hlower : keyword.toList.map Char.toLower = keyword.toList)
    (before after : List Char) (hcontains : text.toList = before ++ keyword.toList ++ after) :
    detectCrisis text = true := by
  rw [detectCrisis_iff]
  refine ⟨keyword, hkeyword, before.map Char.toLower, after.map Char.toLower, ?_⟩
  simp only [toLowerCase, hcontains, List.map_append, hlower]

/-- On characters of the basic plane the code units are the characters. -/
theorem flatMap_utf16Units_basic (chars : List Char)
    (hbasic : ∀ ch ∈ chars, ch.toNat < 65536) :
    chars.flatMap utf16Units = chars.map Char.toNat := by
  induction chars with
  | nil => rfl
  | cons ch rest ih =>
    have hch : ch.toNat < 65536 := hbasic ch (List.mem_cons_self _ _)
    have hrest := ih (fun x hx => hbasic x (List.mem_cons_of_mem _ hx))
    simp only [List.flatMap_cons, List.map_cons, hrest, utf16Units, hch, if_true,
      List.singleton_append]

theorem sortByRecency_perm (conversations : List Conversation) :
    (sortByRecency conversations).Perm conversations :=
  List.perm_insertionSort _ conversations

theorem sortByRecency_sorted (conversations : List Conversation) :
    (sortByRecency conversations).Pairwise (fun a b => a.lastMessageAt ≥ b.lastMessageAt) := by
  haveI : IsTotal Conversation (fun a b => a.lastMessageAt ≥ b.lastMessageAt) :=
    ⟨fun a b => le_total b.lastMessageAt a.lastMessageAt⟩
  haveI : IsTrans Conversation (fun a b => a.lastMessageAt ≥ b.lastMessageAt) :=
    ⟨fun _ _ _ hab hbc => le_trans hbc hab⟩
  exact List.sorted_insertionSort (fun a b : Conversation => a.lastMessageAt ≥ b.lastMessageAt)
    conversations

theorem mem_filterBySession (conversations : List Conversation) (sessionId : Option String)
    (c : Conversation) :
    c ∈ filterBySession conversations sessionId ↔
      c ∈ conversations ∧ ∀ wanted, sessionId = some wanted → wanted ≠ "" →
        c.sessionId = wanted := by
  cases sessionId with
  | none => simp [filterBySession]
  | some wanted =>
    by_cases hempty : wanted = ""
    · simp [filterBySession, hempty]
    · simp [filterBySession, hempty]

/-- One request keeps the fact that every completed journey carries a
completion date. -/
theorem applyOp_completed_dated (user : User) (op : JourneyOp)
    (hdates : ∀ j ∈ user.journeys, j.status = JourneyStatus.completed →
      j.completedDate.isSome = true) :
    ∀ j ∈ (applyOp user op).journeys, j.status = JourneyStatus.completed →
      j.completedDate.isSome = true := by
  intro j hj hdone
  cases op with
  | start d now =>
    by_cases hgate : (!user.hasPremiumAccess && decide (activeJourneys user ≥ 1)) = true
    · simp only [applyOp, startJourney, hgate, if_true] at hj
      exact hdates j hj hdone
    · have hj2 : j ∈ user.journeys ++ [newJourney (user.stats.totalJourneysStarted + 1) d now] := by
        simpa only [applyOp, startJourney, hgate] using hj
      rcases List.mem_append.1 hj2 with hj3 | hj3
      · exact hdates j hj3 hdone
      · rw [List.mem_singleton.1 hj3] at hdone
        simp [newJourney] at hdone
  | step n s c now =>
    cases hf : findJourney user.journeys n with
    | none =>
      simp only [applyOp, updateJourneyStep, hf] at hj
      exact hdates j hj hdone
    | some found =>
      simp only [applyOp, updateJourneyStep, hf] at hj
      rcases mem_updateJourney hj with hj | ⟨old, _, _, hj⟩
      · exact hdates j hj hdone
      · subst hj
        obtain ⟨hfire, hkeep⟩ := applyStep_completion found user.stats s c now
        by_cases hc : c = true ∧ (applyStep found user.stats s c now).1.completedSteps.length = 7
        · rw [(hfire hc).2.1]; rfl
        · rw [(hkeep hc).2.1]
          rw [(hkeep hc).1] at hdone
          exact hdates found (findJourney_mem hf) hdone
  | pause n =>
    cases hf : findJourney user.journeys n with
    | none =>
      simp only [applyOp, pauseJourney, hf] at hj
      exact hdates j hj hdone
    | some found =>
      simp only [applyOp, pauseJourney, hf] at hj
      rcases mem_updateJourney hj with hj | ⟨old, _, _, hj⟩
      · exact hdates j hj hdone
      · subst hj
        simp at hdone
  | resume n now =>
    cases hf : findJourney user.journeys n with
    | none =>
      simp only [applyOp, resumeJourney, hf] at hj
      exact hdates j hj hdone
    | some found =>
      simp only [applyOp, resumeJourney, hf] at hj
      rcases mem_updateJourney hj with hj | ⟨old, _, _, hj⟩
      · exact hdates j hj hdone
      · subst hj
        simp at hdone

/-- From a user with no journeys, every sequence of journey requests leads to
a user whose completed journeys all carry a completion date. -/
theorem runOps_completed_dated (ops : List JourneyOp) (user : User)
    (hdates : ∀ j ∈ user.journeys, j.status = JourneyStatus.completed →
      j.completedDate.isSome = true) :
    ∀ j ∈ (runOps user ops).journeys, j.status = JourneyStatus.completed →
      j.completedDate.isSome = true := by
  induction ops generalizing user with
  | nil => exact hdates
  | cons op rest ih => exact ih (applyOp user op) (applyOp_completed_dated user op hdates)

/-! ## The start operation -/

/-- C1: for an existing user, `POST /start` is rejected with the premium
error (HTTP 403) exactly when the user has no premium access and at least one
journey is active; that is the only rejection, it leaves the stored document
as it was, and the same request on the same document with premium access
succeeds. -/
theorem start_gate (user : User) (resentmentDescription : String) (now : Int) :
    (startJourney (some user) resentmentDescription now = .error RouteError.premiumRequired ↔
      (user.hasPremiumAccess = false ∧ 1 ≤ activeJourneys user)) ∧
    (∀ e, startJourney (some user) resentmentDescription now = .error e →
      e = RouteError.premiumRequired ∧ e.httpStatus = 403 ∧
      applyOp user (.start resentmentDescription now) = user) ∧
    (∃ saved, startJourney (some { user with hasPremiumAccess := true })
      resentmentDescription now = .ok saved) := by
  refine ⟨?_, ?_, ?_⟩
  · by_cases hgate : (!user.hasPremiumAccess && decide (activeJourneys user ≥ 1)) = true
    · simp only [startJourney, hgate, if_true, true_iff]
      simpa using hgate
    · simp only [startJourney, hgate]
      simp at hgate ⊢
      exact fun h => by simpa using hgate h
  · intro e he
    by_cases hgate : (!user.hasPremiumAccess && decide (activeJourneys user ≥ 1)) = true
    · simp only [startJourney, hgate, if_true] at he
      cases he
      refine ⟨rfl, rfl, ?_⟩
      simp [applyOp, startJourney, hgate]
    · simp [startJourney, hgate] at he
  · simp [startJourney]

/-- C3: when `POST /start` succeeds, the saved journey list is the old list
followed by exactly one new journey, whose number is the old
`totalJourneysStarted` plus one, whose status is active, whose current step is
1 and whose completed steps are empty; the counter grows by exactly one and
every journey that existed keeps its position and its content. -/
theorem start_postcondition (user saved : User) (created : Journey)
    (resentmentDescription : String) (now : Int)
    (hok : startJourney (some user) resentmentDescription now = .ok (saved, created)) :
    saved.journeys = user.journeys ++ [created] ∧
    saved.journeys.length = user.journeys.length + 1 ∧
    created.journeyNumber = user.stats.totalJourneysStarted + 1 ∧
    created.status = JourneyStatus.active ∧
    created.currentStep = 1 ∧
    created.completedSteps = [] ∧
    created.resentmentDescription = resentmentDescription ∧
    saved.stats.totalJourneysStarted = user.stats.totalJourneysStarted + 1 ∧
    (∀ i, i < user.journeys.length → saved.journeys[i]? = user.journeys[i]?) := by
  obtain ⟨hcreated, hjourneys, hstats⟩ := startJourney_ok hok
  subst hcreated
  refine ⟨hjourneys, by simp [hjourneys], rfl, rfl, rfl, rfl, rfl, hstats, ?_⟩
  intro i hi
  simp [hjourneys, List.getElem?_append_left hi]

theorem start_postcondition_witness :
    startJourney (some (freshUser false)) "my brother" 5
      = .ok ((applyOp (freshUser false) (.start "my brother" 5)),
             newJourney 1 "my brother" 5) ∧
    (applyOp (freshUser false) (.start "my brother" 5)).journeys
      = (freshUser false).journeys ++ [newJourney 1 "my brother" 5] ∧
    (newJourney 1 "my brother" 5).journeyNumber = 1 :=
  have h := start_postcondition (freshUser false)
    (applyOp (freshUser false) (.start "my brother" 5)) (newJourney 1 "my brother" 5)
    "my brother" 5 rfl
  ⟨rfl, h.1, h.2.2.1⟩

/-! ## Invariants of the user aggregate -/

/-- C2: evaluation of the handlers at a free-tier user who starts a journey,
pauses it, starts a second one (the gate of `POST /start` sees no active
journey) and resumes the first (`PUT /resume` has no gate): every request
succeeds, the user never has premium access, and two journeys are active. -/
theorem free_tier_two_active_after_resume :
    (freshUser false).hasPremiumAccess = false ∧
    (freshUser false).journeys = [] ∧
    (runOps (freshUser false)
      [.start "a" 1, .pause 1, .start "b" 2, .resume 1 3]).hasPremiumAccess = false ∧
    (runOps (freshUser false)
      [.start "a" 1, .pause 1, .start "b" 2, .resume 1 3]).journeys.map
        (fun j => (j.journeyNumber, j.status))
      = [(1, JourneyStatus.active), (2, JourneyStatus.active)] ∧
    activeJourneys (runOps (freshUser false)
      [.start "a" 1, .pause 1, .start "b" 2, .resume 1 3]) = 2 := by
  decide

/-- C4: from a user with no journeys and `totalJourneysStarted = 0`, after any
sequence of start, step, pause and resume requests the journey numbers are
`1, 2, ..., n` in list (creation) order, hence strictly increasing and without
repetition; `totalJourneysStarted` equals the number of journeys and does not
decrease under any further requests; and the number given by a further
successful start equals `totalJourneysStarted` right after that start and
exceeds every number already present. -/
theorem journeyNumber_unique (user : User) (ops : List JourneyOp)
    (hempty : user.journeys = []) (hzero : user.stats.totalJourneysStarted = 0) :
    (runOps user ops).journeys.map (fun j => j.journeyNumber)
      = (List.range' 1 (runOps user ops).journeys.length).map (fun k : Nat => (k : Int)) ∧
    ((runOps user ops).journeys.map (fun j => j.journeyNumber)).Pairwise (fun a b => a < b) ∧
    ((runOps user ops).journeys.map (fun j => j.journeyNumber)).Nodup ∧
    (runOps user ops).stats.totalJourneysStarted = (runOps user ops).journeys.length ∧
    (∀ more, (runOps user ops).stats.totalJourneysStarted
      ≤ (runOps user (ops ++ more)).stats.totalJourneysStarted) ∧
    (∀ d now saved created, startJourney (some (runOps user ops)) d now = .ok (saved, created) →
      created.journeyNumber = saved.stats.totalJourneysStarted ∧
      ∀ x ∈ (runOps user ops).journeys.map (fun j => j.journeyNumber),
        x < created.journeyNumber) := by
  obtain ⟨hnum, hcount⟩ := runOps_numbers ops user (by simp [hempty]) (by simp [hempty, hzero])
  have hpair : ((runOps user ops).journeys.map (fun j => j.journeyNumber)).Pairwise
      (fun a b => a < b) := by
    rw [hnum]
    refine List.Pairwise.map _ ?_ (List.pairwise_lt_range' 1 (runOps user ops).journeys.length)
    intro a b hab
    exact_mod_cast hab
  refine ⟨hnum, hpair, hpair.imp (fun h => ne_of_lt h), hcount, ?_, ?_⟩
  · intro more
    have : runOps user (ops ++ more) = runOps (runOps user ops) more := by
      simp [runOps, List.foldl_append]
    rw [this]
    exact runOps_started_mono more _
  · intro d now saved created hok
    obtain ⟨hnew, _, hsaved⟩ := startJourney_ok hok
    have hcreated : created.journeyNumber
        = (runOps user ops).stats.totalJourneysStarted + 1 := by rw [hnew]; rfl
    refine ⟨by rw [hcreated, hsaved], ?_⟩
    intro x hx
    rw [hnum] at hx
    obtain ⟨k, hk, rfl⟩ := List.mem_map.1 hx
    have := (List.mem_range'_1.1 hk).2
    rw [hcreated, hcount]
    omega

theorem journeyNumber_unique_witness :
    (freshUser false).journeys = [] ∧
    (freshUser false).stats.totalJourneysStarted = 0 ∧
    (runOps (freshUser false)
        [.start "a" 1, .start "b" 2, .pause 1, .start "c" 3, .step 2 4 true 4]).journeys.map
        (fun j => j.journeyNumber) = [1, 2] ∧
    (runOps (freshUser false)
        [.start "a" 1, .start "b" 2, .pause 1, .start "c" 3, .step 2 4 true 4]).journeys.map
        (fun j => j.journeyNumber)
      = (List.range' 1 (runOps (freshUser false)
          [.start "a" 1, .start "b" 2, .pause 1, .start "c" 3,
            .step 2 4 true 4]).journeys.length).map (fun k : Nat => (k : Int)) :=
  ⟨rfl, rfl, by decide,
    (journeyNumber_unique (freshUser false)
      [.start "a" 1, .start "b" 2, .pause 1, .start "c" 3, .step 2 4 true 4] rfl rfl).1⟩

/-! ## Step updates -/

/-- C5 (amended): from a user whose journeys have all their completed steps in
1..7 (in particular from a user with no journeys), after any sequence of
start, step, pause and resume requests in which every step request that marks
a step completed carries a step number in 1..7, every element of every
journey's completed steps lies in 1..7. -/
theorem completedSteps_range (user : User) (ops : List JourneyOp)
    (hinit : ∀ j ∈ user.journeys, ∀ x ∈ j.completedSteps, 1 ≤ x ∧ x ≤ 7)
    (hrange : ∀ n s now, JourneyOp.step n s true now ∈ ops → 1 ≤ s ∧ s ≤ 7) :
    ∀ j ∈ (runOps user ops).journeys, ∀ x ∈ j.completedSteps, 1 ≤ x ∧ x ≤ 7 := by
  induction ops generalizing user with
  | nil => exact hinit
  | cons op rest ih =>
    show ∀ j ∈ (runOps (applyOp user op) rest).journeys, _
    apply ih
    · intro j hj x hx
      rcases applyOp_completedSteps_mem hj hx with ⟨old, hold, hxo⟩ | ⟨n, now, hop⟩
      · exact hinit old hold x hxo
      · exact hrange n x now (hop ▸ List.mem_cons_self _ _)
    · intro n s now hmem
      exact hrange n s now (List.mem_cons_of_mem _ hmem)

theorem completedSteps_range_witness :
    (∀ j ∈ (freshUser false).journeys, ∀ x ∈ j.completedSteps, 1 ≤ x ∧ x ≤ 7) ∧
    (∀ n s now, JourneyOp.step n s true now ∈
      [JourneyOp.start "a" 1, .step 1 3 true 2, .step 1 9 false 3, .step 1 1 true 4] →
        1 ≤ s ∧ s ≤ 7) ∧
    (runOps (freshUser false)
      [.start "a" 1, .step 1 3 true 2, .step 1 9 false 3, .step 1 1 true 4]).journeys.map
        (fun j => j.completedSteps) = [[1, 3]] ∧
    ∀ j ∈ (runOps (freshUser false)
      [.start "a" 1, .step 1 3 true 2, .step 1 9 false 3, .step 1 1 true 4]).journeys,
      ∀ x ∈ j.completedSteps, 1 ≤ x ∧ x ≤ 7 :=
  have hinit : ∀ j ∈ (freshUser false).journeys, ∀ x ∈ j.completedSteps, 1 ≤ x ∧ x ≤ 7 := by
    intro j hj; simp [freshUser] at hj
  have hrange : ∀ n s now, JourneyOp.step n s true now ∈
      [JourneyOp.start "a" 1, .step 1 3 true 2, .step 1 9 false 3, .step 1 1 true 4] →
        1 ≤ s ∧ s ≤ 7 := by
    intro n s now h
    simp at h
    rcases h with ⟨_, rfl, _⟩ | ⟨_, rfl, _⟩ <;> decide
  ⟨hinit, hrange, by decide, completedSteps_range (freshUser false) _ hinit hrange⟩

/-- C5 (counterexample): the step handler accepts step number 9 with the
completed flag on a journey just started, and the journey's completed steps
become `[9]`, which is not within 1..7. -/
theorem completedSteps_out_of_range :
    (updateJourneyStep (some (runOps (freshUser false) [.start "a" 1])) 1 9 true 2).isOk = true ∧
    (runOps (freshUser false) [.start "a" 1, .step 1 9 true 2]).journeys.map
      (fun j => j.completedSteps) = [[9]] ∧
    ¬ (∀ j ∈ (runOps (freshUser false) [.start "a" 1, .step 1 9 true 2]).journeys,
        ∀ x ∈ j.completedSteps, 1 ≤ x ∧ x ≤ 7) := by
  refine ⟨rfl, by decide, by decide⟩
/-- C6: when a journey's completed steps are strictly ascending, a step request
with the completed flag and any integer step number leaves them strictly
ascending, they contain the step number, and their elements are exactly the
old elements together with the step number. -/
theorem completedSteps_sorted (journey : Journey) (stats : Stats) (stepNumber : Int)
    (now : Int) (hsorted : journey.completedSteps.Sorted (fun a b => a < b)) :
    (applyStep journey stats stepNumber true now).1.completedSteps.Sorted (fun a b => a < b) ∧
    stepNumber ∈ (applyStep journey stats stepNumber true now).1.completedSteps ∧
    ∀ x, x ∈ (applyStep journey stats stepNumber true now).1.completedSteps ↔
      (x ∈ journey.completedSteps ∨ x = stepNumber) := by
  rw [applyStep_completedSteps]
  by_cases hs : stepNumber ∈ journey.completedSteps
  · simp only [hs, not_true, and_false, if_false]
    refine ⟨hsorted, trivial, fun x => ⟨Or.inl, ?_⟩⟩
    rintro (h | h)
    · exact h
    · exact h ▸ hs
  · simp only [hs, not_false_eq_true, and_self, if_true]
    have hperm : (sortAscending (journey.completedSteps ++ [stepNumber])).Perm
        (journey.completedSteps ++ [stepNumber]) := List.perm_insertionSort _ _
    have hnodup : (journey.completedSteps ++ [stepNumber]).Nodup := by
      rw [List.nodup_append]
      refine ⟨hsorted.nodup, List.nodup_singleton _, ?_⟩
      intro a ha hb
      rw [List.mem_singleton] at hb
      exact hs (hb ▸ ha)
    refine ⟨(sortAscending_sorted _).lt_of_le (hperm.nodup_iff.2 hnodup), ?_, ?_⟩
    · rw [mem_sortAscending]; simp
    · intro x
      rw [mem_sortAscending]; simp

theorem completedSteps_sorted_witness :
    ({ newJourney 1 "a" 0 with completedSteps := [1, 3] }).completedSteps.Sorted
      (fun a b => a < b) ∧
    (applyStep { newJourney 1 "a" 0 with completedSteps := [1, 3] }
      (freshUser false).stats 2 true 5).1.completedSteps = [1, 2, 3] ∧
    (applyStep { newJourney 1 "a" 0 with completedSteps := [1, 3] }
      (freshUser false).stats 2 true 5).1.completedSteps.Sorted (fun a b => a < b) :=
  ⟨by decide, by decide,
    (completedSteps_sorted { newJourney 1 "a" 0 with completedSteps := [1, 3] }
      (freshUser false).stats 2 5 (by decide)).1⟩

/-- C10: for every journey and every step number, marking the step completed
a second time right after the first gives the same completed steps (hence the
same length) and the same current step as marking it once. -/
theorem step_completion_idempotent (journey : Journey) (stats : Stats) (stepNumber : Int)
    (first second : Int) :
    (applyStep (applyStep journey stats stepNumber true first).1
        (applyStep journey stats stepNumber true first).2 stepNumber true second).1.completedSteps
      = (applyStep journey stats stepNumber true first).1.completedSteps ∧
    (applyStep (applyStep journey stats stepNumber true first).1
        (applyStep journey stats stepNumber true first).2 stepNumber true
          second).1.completedSteps.length
      = (applyStep journey stats stepNumber true first).1.completedSteps.length ∧
    (applyStep (applyStep journey stats stepNumber true first).1
        (applyStep journey stats stepNumber true first).2 stepNumber true second).1.currentStep
      = (applyStep journey stats stepNumber true first).1.currentStep := by
  have hmem : stepNumber ∈ (applyStep journey stats stepNumber true first).1.completedSteps := by
    rw [applyStep_completedSteps]
    split_ifs with h
    · rw [mem_sortAscending]; simp
    · simpa using h
  have hsteps : (applyStep (applyStep journey stats stepNumber true first).1
        (applyStep journey stats stepNumber true first).2 stepNumber true second).1.completedSteps
      = (applyStep journey stats stepNumber true first).1.completedSteps := by
    rw [applyStep_completedSteps _ _ _ _ second]
    simp [hmem]
  refine ⟨hsteps, by rw [hsteps], ?_⟩
  rw [applyStep_currentStep _ _ _ second, applyStep_currentStep _ _ _ first]
  split_ifs <;> omega

/-- C7 (amended): in every state reached from a newly started journey by any
sequence of step-update requests, the status is completed if and only if the
completed steps, which never repeat an element, number at least seven, and if
and only if the completion date is set. -/
theorem completion_equivalence (journeyNumber : Int) (resentmentDescription : String)
    (startDate : Int) (stats : Stats) (requests : List StepRequest) :
    ((runSteps (newJourney journeyNumber resentmentDescription startDate) stats requests).1.status
        = JourneyStatus.completed ↔
      7 ≤ (runSteps (newJourney journeyNumber resentmentDescription startDate) stats
        requests).1.completedSteps.length) ∧
    ((runSteps (newJourney journeyNumber resentmentDescription startDate) stats requests).1.status
        = JourneyStatus.completed ↔
      (runSteps (newJourney journeyNumber resentmentDescription startDate) stats
        requests).1.completedDate.isSome = true) ∧
    (runSteps (newJourney journeyNumber resentmentDescription startDate) stats
      requests).1.completedSteps.Nodup := by
  have key : ∀ (requests : List StepRequest) (journey : Journey) (stats : Stats),
      (journey.status = JourneyStatus.completed ↔ 7 ≤ journey.completedSteps.length) →
      (journey.status = JourneyStatus.completed ↔ journey.completedDate.isSome = true) →
      journey.completedSteps.Nodup →
      ((runSteps journey stats requests).1.status = JourneyStatus.completed ↔
        7 ≤ (runSteps journey stats requests).1.completedSteps.length) ∧
      ((runSteps journey stats requests).1.status = JourneyStatus.completed ↔
        (runSteps journey stats requests).1.completedDate.isSome = true) ∧
      (runSteps journey stats requests).1.completedSteps.Nodup := by
    intro requests
    induction requests with
    | nil => intro journey stats h1 h2 h3; exact ⟨h1, h2, h3⟩
    | cons r rest ih =>
      intro journey stats h1 h2 h3
      rw [runSteps_cons]
      obtain ⟨g1, g2, g3⟩ :=
        applyStep_completion_inv journey stats r.stepNumber r.completed r.now h1 h2 h3
      exact ih _ _ g1 g2 g3
  exact key requests _ stats (by simp [newJourney]) (by simp [newJourney]) (by simp [newJourney])

/-- C7 (counterexample): after steps 1 to 7 and then step 8 are marked
completed on a newly started journey, the status is completed while the
completed steps hold eight distinct elements, not exactly seven. -/
theorem completed_with_eight_steps :
    (runSteps (newJourney 1 "a" 0) (freshUser false).stats
      [⟨1, true, 1⟩, ⟨2, true, 2⟩, ⟨3, true, 3⟩, ⟨4, true, 4⟩, ⟨5, true, 5⟩, ⟨6, true, 6⟩,
        ⟨7, true, 7⟩, ⟨8, true, 8⟩]).1.status = JourneyStatus.completed ∧
    (runSteps (newJourney 1 "a" 0) (freshUser false).stats
      [⟨1, true, 1⟩, ⟨2, true, 2⟩, ⟨3, true, 3⟩, ⟨4, true, 4⟩, ⟨5, true, 5⟩, ⟨6, true, 6⟩,
        ⟨7, true, 7⟩, ⟨8, true, 8⟩]).1.completedSteps = [1, 2, 3, 4, 5, 6, 7, 8] ∧
    ¬ ((runSteps (newJourney 1 "a" 0) (freshUser false).stats
        [⟨1, true, 1⟩, ⟨2, true, 2⟩, ⟨3, true, 3⟩, ⟨4, true, 4⟩, ⟨5, true, 5⟩, ⟨6, true, 6⟩,
          ⟨7, true, 7⟩, ⟨8, true, 8⟩]).1.status = JourneyStatus.completed ↔
      (runSteps (newJourney 1 "a" 0) (freshUser false).stats
        [⟨1, true, 1⟩, ⟨2, true, 2⟩, ⟨3, true, 3⟩, ⟨4, true, 4⟩, ⟨5, true, 5⟩, ⟨6, true, 6⟩,
          ⟨7, true, 7⟩, ⟨8, true, 8⟩]).1.completedSteps.dedup.length = 7) := by
  refine ⟨by decide, by decide, by decide⟩

/-! ## Completed journeys -/

/-- C8 (amended): when the journey a request addresses is completed, a step
update with either flag and any step number is accepted and leaves its status
completed; the pause and resume handlers assign the status without reading it,
so after pause the status is paused and after resume it is active. -/
theorem completed_status_under_requests (user : User) (journeyNumber : Int) (journey : Journey)
    (hfind : findJourney user.journeys journeyNumber = some journey)
    (hdone : journey.status = JourneyStatus.completed) :
    (∀ stepNumber completed now, ∃ saved,
      updateJourneyStep (some user) journeyNumber stepNumber completed now = .ok saved ∧
      (findJourney saved.journeys journeyNumber).map (fun j => j.status)
        = some JourneyStatus.completed) ∧
    (∃ saved, pauseJourney (some user) journeyNumber = .ok saved ∧
      (findJourney saved.journeys journeyNumber).map (fun j => j.status)
        = some JourneyStatus.paused) ∧
    (∀ now, ∃ saved, resumeJourney (some user) journeyNumber now = .ok saved ∧
      (findJourney saved.journeys journeyNumber).map (fun j => j.status)
        = some JourneyStatus.active) := by
  refine ⟨?_, ?_, ?_⟩
  · intro stepNumber completed now
    refine ⟨_, by simp only [updateJourneyStep, hfind]; rfl, ?_⟩
    dsimp only
    rw [findJourney_updateJourney journeyNumber _ (fun _ _ => ?_), hfind]
    · simp [applyStep_status_completed journey user.stats stepNumber completed now hdone]
    · rw [applyStep_journeyNumber]; exact findJourney_number hfind
  · refine ⟨_, by simp only [pauseJourney, hfind]; rfl, ?_⟩
    dsimp only
    rw [findJourney_updateJourney journeyNumber _ (fun _ h => ?_), hfind]
    · rfl
    · exact h
  · intro now
    refine ⟨_, by simp only [resumeJourney, hfind]; rfl, ?_⟩
    dsimp only
    rw [findJourney_updateJourney journeyNumber _ (fun _ h => ?_), hfind]
    · rfl
    · exact h

theorem completed_status_under_requests_witness :
    findJourney (runOps (freshUser false) (.start "a" 0 :: completeAllSteps)).journeys 1
      = some { newJourney 1 "a" 0 with
                currentStep := 7, completedSteps := [1, 2, 3, 4, 5, 6, 7],
                status := JourneyStatus.completed, completedDate := some 7 } ∧
    ∃ saved, updateJourneyStep (some (runOps (freshUser false)
        (.start "a" 0 :: completeAllSteps))) 1 3 false 9 = .ok saved ∧
      (findJourney saved.journeys 1).map (fun j => j.status) = some JourneyStatus.completed :=
  ⟨by decide,
    (completed_status_under_requests (runOps (freshUser false) (.start "a" 0 :: completeAllSteps))
      1 { newJourney 1 "a" 0 with
            currentStep := 7, completedSteps := [1, 2, 3, 4, 5, 6, 7],
            status := JourneyStatus.completed, completedDate := some 7 }
      (by decide) rfl).1 3 false 9⟩

/-- C8 (counterexample): a journey completed by marking steps 1 to 7 has
status paused after a pause request and status active after a resume request. -/
theorem completed_journey_paused_and_resumed :
    (findJourney (runOps (freshUser false)
        (.start "a" 0 :: completeAllSteps)).journeys 1).map (fun j => j.status)
      = some JourneyStatus.completed ∧
    (findJourney (runOps (freshUser false)
        (.start "a" 0 :: completeAllSteps ++ [.pause 1])).journeys 1).map (fun j => j.status)
      = some JourneyStatus.paused ∧
    (findJourney (runOps (freshUser false)
        (.start "a" 0 :: completeAllSteps ++ [.resume 1 9])).journeys 1).map (fun j => j.status)
      = some JourneyStatus.active ∧
    ¬ ((findJourney (runOps (freshUser false)
          (.start "a" 0 :: completeAllSteps ++ [.pause 1])).journeys 1).map (fun j => j.status)
        = (findJourney (runOps (freshUser false)
          (.start "a" 0 :: completeAllSteps)).journeys 1).map (fun j => j.status)) := by
  refine ⟨by decide, by decide, by decide, by decide⟩

/-- C9: evaluation of the step handler on a journey completed by marking
steps 1 to 7, when step 1 is marked completed once more: the counter
`totalJourneysCompleted` goes from 1 to 2 and the completion date is stamped
again, while the user still has a single completed journey. -/
theorem completion_counted_twice :
    (runOps (freshUser false) (.start "a" 0 :: completeAllSteps)).stats.totalJourneysCompleted
      = 1 ∧
    (runOps (freshUser false)
      (.start "a" 0 :: completeAllSteps ++ [.step 1 1 true 8])).stats.totalJourneysCompleted
      = 2 ∧
    (runOps (freshUser false)
      (.start "a" 0 :: completeAllSteps ++ [.step 1 1 true 8])).journeys.map
        (fun j => (j.status, j.completedSteps, j.completedDate))
      = [(JourneyStatus.completed, [1, 2, 3, 4, 5, 6, 7], some 8)] := by
  refine ⟨by decide, by decide, by decide⟩

/-! ## The in-order scenario -/

/-- C11: on a journey just started, marking steps 1, 2, ..., k completed in
that order gives completed steps `[1, ..., k]`; for every k below 7 the current
step is k + 1, the status is active, no completion date is set and the
completed counter is unchanged; for k = 7 the current step is 7, the completed
steps are `[1, 2, 3, 4, 5, 6, 7]`, the status is completed, the completion date
is the time of the seventh request and the completed counter has grown by
exactly one. -/
theorem in_order_scenario (journeyNumber : Int) (resentmentDescription : String)
    (startDate : Int) (stats : Stats) (now : Nat → Int) (k : Nat) (hk : k ≤ 7) :
    (runSteps (newJourney journeyNumber resentmentDescription startDate) stats
        (inOrderRequests k now)).1.completedSteps
      = (List.range' 1 k).map (fun i : Nat => (i : Int)) ∧
    (k < 7 →
      (runSteps (newJourney journeyNumber resentmentDescription startDate) stats
        (inOrderRequests k now)).1.currentStep = (k : Int) + 1 ∧
      (runSteps (newJourney journeyNumber resentmentDescription startDate) stats
        (inOrderRequests k now)).1.status = JourneyStatus.active ∧
      (runSteps (newJourney journeyNumber resentmentDescription startDate) stats
        (inOrderRequests k now)).1.completedDate = none ∧
      (runSteps (newJourney journeyNumber resentmentDescription startDate) stats
        (inOrderRequests k now)).2.totalJourneysCompleted = stats.totalJourneysCompleted) ∧
    (k = 7 →
      (runSteps (newJourney journeyNumber resentmentDescription startDate) stats
        (inOrderRequests k now)).1.currentStep = 7 ∧
      (runSteps (newJourney journeyNumber resentmentDescription startDate) stats
        (inOrderRequests k now)).1.completedSteps = [1, 2, 3, 4, 5, 6, 7] ∧
      (runSteps (newJourney journeyNumber resentmentDescription startDate) stats
        (inOrderRequests k now)).1.status = JourneyStatus.completed ∧
      (runSteps (newJourney journeyNumber resentmentDescription startDate) stats
        (inOrderRequests k now)).1.completedDate = some (now 7) ∧
      (runSteps (newJourney journeyNumber resentmentDescription startDate) stats
        (inOrderRequests k now)).2.totalJourneysCompleted
        = stats.totalJourneysCompleted + 1) := by
  interval_cases k <;>
    simp [inOrderRequests, runSteps, applyStep, sortAscending, newJourney, List.range',
      List.range'.eq_def]


theorem in_order_scenario_witness :
    (7 : Nat) ≤ 7 ∧
    (runSteps (newJourney 1 "my brother" 0) (freshUser false).stats
      (inOrderRequests 7 (fun i => (i : Int)))).1.status = JourneyStatus.completed ∧
    (runSteps (newJourney 1 "my brother" 0) (freshUser false).stats
      (inOrderRequests 7 (fun i => (i : Int)))).2.totalJourneysCompleted
      = (freshUser false).stats.totalJourneysCompleted + 1 :=
  ⟨by decide,
    ((in_order_scenario 1 "my brother" 0 (freshUser false).stats (fun i => (i : Int)) 7
      (by decide)).2.2 rfl).2.2.1,
    ((in_order_scenario 1 "my brother" 0 (freshUser false).stats (fun i => (i : Int)) 7
      (by decide)).2.2 rfl).2.2.2.2⟩

/-! ## Completed resources -/

/-- C14: for a user with at most one record per resource id, completing a
resource succeeds and keeps the ids distinct. When no record had the id, one
record with `timesCompleted = 1` is appended and `totalResourcesCompleted`
grows by one, and completing the same resource once more leaves that single
record with `timesCompleted = 2` and the counter one above its first value.
When a record had the id, that record alone changes (`timesCompleted` plus
one, `completedAt` refreshed), no record is added and the counter stays. -/
theorem complete_resource_upsert (user : User) (resourceId resourceName : String) (now : Int)
    (hunique : (user.completedResources.map (fun r => r.resourceId)).Nodup) :
    ∃ saved, completeResource (some user) resourceId resourceName now = .ok saved ∧
      (saved.completedResources.map (fun r => r.resourceId)).Nodup ∧
      (findResource user.completedResources resourceId = none →
        saved.completedResources = user.completedResources ++
          [{ resourceId := resourceId, resourceName := resourceName,
             completedAt := now, timesCompleted := 1 }] ∧
        saved.stats.totalResourcesCompleted = user.stats.totalResourcesCompleted + 1 ∧
        ∀ secondName later, ∃ again,
          completeResource (some saved) resourceId secondName later = .ok again ∧
          again.completedResources = user.completedResources ++
            [{ resourceId := resourceId, resourceName := resourceName,
               completedAt := later, timesCompleted := 2 }] ∧
          again.stats.totalResourcesCompleted = user.stats.totalResourcesCompleted + 1) ∧
      (∀ record, findResource user.completedResources resourceId = some record →
        (∃ before after, user.completedResources = before ++ record :: after ∧
          saved.completedResources = before ++
            { record with timesCompleted := record.timesCompleted + 1, completedAt := now }
              :: after) ∧
        saved.completedResources.length = user.completedResources.length ∧
        saved.stats.totalResourcesCompleted = user.stats.totalResourcesCompleted) := by
  cases hfind : findResource user.completedResources resourceId with
  | none =>
    refine ⟨_, by simp only [completeResource, hfind]; rfl, ?_, ?_, ?_⟩
    · have hnot := findResource_none hfind
      simp only [List.map_append, List.map_cons, List.map_nil]
      rw [List.nodup_append]
      refine ⟨hunique, List.nodup_singleton _, ?_⟩
      intro a ha hb
      rw [List.mem_singleton] at hb
      obtain ⟨r, hr, hra⟩ := List.mem_map.1 ha
      exact hnot r hr (hra.trans hb)
    · intro _
      refine ⟨rfl, rfl, ?_⟩
      intro secondName later
      have hfound := findResource_append_new user.completedResources
        { resourceId := resourceId, resourceName := resourceName,
          completedAt := now, timesCompleted := 1 } hfind
      refine ⟨_, by simp only [completeResource, hfound]; rfl, ?_, rfl⟩
      exact updateResource_append_new user.completedResources
        { resourceId := resourceId, resourceName := resourceName,
          completedAt := now, timesCompleted := 1 }
        (fun r => { r with timesCompleted := r.timesCompleted + 1, completedAt := later })
        (findResource_none hfind)
    · intro record h
      exact absurd h (by simp)
  | some record =>
    obtain ⟨before, after, hsplit, hid, hbefore, hupdate⟩ := updateResource_split
      (fun r => { r with timesCompleted := r.timesCompleted + 1, completedAt := now }) hfind
    refine ⟨_, by simp only [completeResource, hfind]; rfl, ?_, ?_, ?_⟩
    · dsimp only
      rw [hupdate]
      rw [hsplit] at hunique
      simpa using hunique
    · intro h
      exact absurd h (by simp)
    · intro record2 h
      have : record2 = record := by simpa using h.symm
      subst this
      refine ⟨⟨before, after, hsplit, hupdate⟩, ?_, rfl⟩
      dsimp only
      rw [hupdate, hsplit]
      simp

theorem complete_resource_upsert_witness :
    ((freshUser false).completedResources.map (fun r => r.resourceId)).Nodup ∧
    ∃ saved, completeResource (some (freshUser false)) "breathing" "Breathing" 5 = .ok saved ∧
      (saved.completedResources.map (fun r => r.resourceId)).Nodup :=
  ⟨by decide,
    (complete_resource_upsert (freshUser false) "breathing" "Breathing" 5 (by decide)).imp
      (fun _ h => ⟨h.1, h.2.1⟩)⟩

/-! ## Statistics -/

/-- C18: for a user whose completed journeys carry a completion date, the
average is 0 when no journey is completed; otherwise each completed journey
counts `ceil((completedDate - startDate) / 86400000)` days, and the average
is the sum of these counts divided by their number and rounded to the nearest
integer, halves up (`floor(x + 1/2)`), hence within any bounds that hold for
every single count, the least and the greatest count among them. -/
theorem average_completion_days (user : User)
    (hdates : ∀ j ∈ user.journeys, j.status = JourneyStatus.completed →
      j.completedDate.isSome = true) :
    (completedJourneys user = [] → avgCompletionDays user = some 0) ∧
    (completedJourneys user ≠ [] → ∃ days : List Int,
      (completedJourneys user).map completionDays = days.map some ∧
      (∀ j ∈ completedJourneys user, ∀ completedDate, j.completedDate = some completedDate →
        completionDays j
          = some ⌈((completedDate - j.startDate : Int) : ℚ) / (86400000 : ℚ)⌉) ∧
      avgCompletionDays user
        = some ⌊((days.sum : Int) : ℚ) / ((days.length : Int) : ℚ) + 1 / 2⌋ ∧
      ∀ lo hi, (∀ d ∈ days, lo ≤ d ∧ d ≤ hi) →
        ∃ average, avgCompletionDays user = some average ∧ lo ≤ average ∧ average ≤ hi) := by
  constructor
  · intro hnone
    simp [avgCompletionDays, hnone]
  · intro hsome
    have hpos : 0 < (completedJourneys user).length := List.length_pos.2 hsome
    have hdays : (completedJourneys user).map completionDays
        = ((completedJourneys user).map (fun j => (completionDays j).getD 0)).map some := by
      rw [List.map_map]
      apply List.map_congr_left
      intro j hj
      have hmem := List.mem_filter.1 hj
      have hdone : j.status = JourneyStatus.completed := by simpa using hmem.2
      obtain ⟨d, hd⟩ := Option.isSome_iff_exists.1 (hdates j hmem.1 hdone)
      simp [completionDays, hd]
    have hlen : ((completedJourneys user).map (fun j => (completionDays j).getD 0)).length
        = (completedJourneys user).length := by simp
    have hposInt : (0 : Int) < ((completedJourneys user).length : Int) := by exact_mod_cast hpos
    have havg : avgCompletionDays user = some (roundDiv
        ((completedJourneys user).map (fun j => (completionDays j).getD 0)).sum
        ((completedJourneys user).length : Int)) := by
      simp only [avgCompletionDays, gt_iff_lt, hpos, if_true]
      rw [totalDays_of_days _ _ hdays]
      rfl
    refine ⟨_, hdays, ?_, ?_, ?_⟩
    · intro j _ completedDate hd
      simp only [completionDays, hd, Option.map_some']
      rw [ceilDiv_eq_ceil _ _ (by decide)]
      norm_num [millisecondsPerDay]
    · rw [havg, hlen, roundDiv_eq_floor _ _ hposInt]
    · intro lo hi hbounds
      obtain ⟨h1, h2⟩ := sum_between _ lo hi hbounds
      rw [hlen] at h1 h2
      exact ⟨_, havg, roundDiv_between _ _ lo hi hposInt h1 h2⟩

theorem average_completion_days_witness :
    (∀ j ∈ twoCompletedUser.journeys, j.status = JourneyStatus.completed →
      j.completedDate.isSome = true) ∧
    (completedJourneys twoCompletedUser).map completionDays = [some 1, some 2] ∧
    avgCompletionDays twoCompletedUser = some 2 ∧
    (completedJourneys twoCompletedUser = [] → avgCompletionDays twoCompletedUser = some 0) :=
  ⟨by decide, by decide, by decide,
    (average_completion_days twoCompletedUser (by decide)).1⟩

/-! ## Crisis detection -/

/-- C12: for every message, and for every lower-casing (the argument of
`detectCrisisWith`, which stands for `toLowerCase`), the detection is true if
and only if the lower-cased message contains one of the phrases of
`CRISIS_KEYWORDS` as a substring. When the lower-casing is the ASCII one on
ASCII messages, as that of JavaScript is, the result on an ASCII message does
not depend on the case of its letters: two ASCII messages whose upper-cased
characters agree get the same result; "I want to DIE today" is detected, in
any mix of cases, and "I had a great day" is not. -/
theorem detectCrisis_spec (lower : String → List Char) :
    (∀ message, detectCrisisWith lower message = true ↔
      ∃ keyword ∈ CRISIS_KEYWORDS, ∃ before after,
        lower message = before ++ keyword.toList ++ after) ∧
    ((∀ message, isAscii message = true → lower message = toLowerCase message) →
      (∀ message, isAscii message = true →
        detectCrisisWith lower message = detectCrisis message) ∧
      (∀ first second, isAscii first = true → isAscii second = true →
        first.toList.map Char.toUpper = second.toList.map Char.toUpper →
        detectCrisisWith lower first = detectCrisisWith lower second) ∧
      detectCrisisWith lower "I want to DIE today" = true ∧
      detectCrisisWith lower "i WANT to die TODAY" = true ∧
      detectCrisisWith lower "I had a great day" = false) ∧
    isAscii "I want to DIE today" = true ∧
    isAscii "I had a great day" = true ∧
    detectCrisis "I want to DIE today" = true ∧
    detectCrisis "i WANT to die TODAY" = true ∧
    detectCrisis "I had a great day" = false := by
  refine ⟨?_, ?_, by decide, by decide, by decide, by decide, by decide⟩
  · intro message
    simp only [detectCrisisWith, List.any_eq_true, includes_iff]
  · intro hagree
    have hsame : ∀ message, isAscii message = true →
        detectCrisisWith lower message = detectCrisis message := by
      intro message hmessage
      simp only [detectCrisis, detectCrisisWith, hagree message hmessage]
    refine ⟨hsame, ?_, ?_, ?_, ?_⟩
    · intro first second hfirst hsecond hupper
      rw [hsame first hfirst, hsame second hsecond]
      simp only [detectCrisis, detectCrisisWith,
        toLowerCase_of_same_upper first second hfirst hsecond hupper]
    · rw [hsame _ (by decide)]
      decide
    · rw [hsame _ (by decide)]
      decide
    · rw [hsame _ (by decide)]
      decide

/-! ## The chat handler -/

/-- C13: in every successful chat response, `isCrisis` is `detectCrisis` of the
message; when it is true, `crisisResources` holds the strings "988" and
"Text HOME to 741741" and the reminder to call the emergency services, and when
it is false `crisisResources` is null; a message that contains "kill myself"
gives `isCrisis` true; and for every other completion text (and other clock
readings) the same request succeeds with the same `isCrisis` and the same
`crisisResources`. -/
theorem crisis_surfacing (userId message sessionId : Option String) (found : Option User)
    (completion : Option String) (clock : ChatClock) (body : ChatReply)
    (hsuccess : (chat userId message sessionId found completion clock).response
      = .success body) :
    ∃ text, message = some text ∧
      body.isCrisis = detectCrisis text ∧
      (detectCrisis text = true → body.crisisResources = some
        { suicidePreventionLifeline := "988"
          crisisTextLine := "Text HOME to 741741"
          message := "If you are in immediate danger, please call 911 or go to your nearest emergency room." }) ∧
      (detectCrisis text = false → body.crisisResources = none) ∧
      (∀ before after, text.toList = before ++ "kill myself".toList ++ after →
        body.isCrisis = true) ∧
      (∀ otherCompletion otherClock, ∃ otherBody,
        (chat userId message sessionId found (some otherCompletion) otherClock).response
          = .success otherBody ∧
        otherBody.isCrisis = body.isCrisis ∧
        otherBody.crisisResources = body.crisisResources) := by
  obtain ⟨text, identity, user, reply, rfl, rfl, htext, hidentity, rfl, hpremium, rfl⟩ :=
    chat_success_inv hsuccess
  obtain ⟨body2, saved, hchat, hcrisis, hresources, _, _⟩ :=
    chat_success text identity sessionId user reply clock _ _ htext hidentity hpremium rfl rfl
  rw [hchat] at hsuccess
  have hbody : body2 = body := by simpa using hsuccess
  subst hbody
  refine ⟨text, rfl, hcrisis, ?_, ?_, ?_, ?_⟩
  · intro h
    rw [hresources, h]
    rfl
  · intro h
    rw [hresources, h]
    rfl
  · intro before after hcontains
    rw [hcrisis]
    exact detectCrisis_of_contains text "kill myself" (by decide) (by decide) before after
      hcontains
  · intro otherCompletion otherClock
    obtain ⟨body3, saved3, hchat3, hcrisis3, hresources3, _, _⟩ :=
      chat_success text identity sessionId user otherCompletion otherClock _ _ htext hidentity
        hpremium rfl rfl
    exact ⟨body3, by rw [hchat3], by rw [hcrisis3, hcrisis], by rw [hresources3, hresources]⟩

theorem crisis_surfacing_witness :
    ∃ body, (chat (some "u1") (some "I want to kill myself") (some "s1") (some chattingUser)
        (some "I hear you") tickingClock).response = .success body ∧
      body.isCrisis = true :=
  have hbody : ∃ body, (chat (some "u1") (some "I want to kill myself") (some "s1")
      (some chattingUser) (some "I hear you") tickingClock).response = .success body := by
    simp [chat, chattingUser, freshUser]
  hbody.imp (fun body h => ⟨h,
    (crisis_surfacing (some "u1") (some "I want to kill myself") (some "s1") (some chattingUser)
      (some "I hear you") tickingClock body h).elim
      (fun text htext => by
        obtain ⟨hmessage, hcrisis, _⟩ := htext
        cases hmessage
        rw [hcrisis]
        decide)⟩)

/-- C17 (amended): in every successful chat turn the thread written to the
saved document keeps its previous messages (none for a thread created by this
request) as they were and in place, followed by exactly two new messages, the
user message and then the assistant reply; the other threads are untouched.
The timestamp of the last message is the clock reading taken when the reply
is pushed, and `lastMessageAt` is the next clock reading: it is not earlier
than the last message when the clock does not run backwards, and the two are
equal exactly when the two readings coincide. -/
theorem chat_turn_appends (userId message sessionId : Option String) (found : Option User)
    (completion : Option String) (clock : ChatClock) (body : ChatReply)
    (hsuccess : (chat userId message sessionId found completion clock).response
      = .success body) :
    ∃ text reply user saved previous written,
      message = some text ∧ completion = some reply ∧ found = some user ∧
      (chat userId message sessionId found completion clock).saved = some saved ∧
      written.messages = previous.messages ++
        [{ role := Role.user, content := text, timestamp := clock.userMessageTime },
         { role := Role.assistant, content := reply, timestamp := clock.replyTime }] ∧
      written.conversationId = previous.conversationId ∧
      written.sessionId = previous.sessionId ∧
      written.context = previous.context ∧
      written.startedAt = previous.startedAt ∧
      (findConversation user.aiConversations sessionId = none →
        previous.messages = [] ∧
        saved.aiConversations = user.aiConversations ++ [written]) ∧
      (∀ thread, findConversation user.aiConversations sessionId = some thread →
        previous = thread ∧
        ∃ before after, user.aiConversations = before ++ thread :: after ∧
          saved.aiConversations = before ++ written :: after) ∧
      written.lastMessageAt = clock.lastMessageAt ∧
      written.messages.getLast?.map (fun m => m.timestamp) = some clock.replyTime ∧
      (clock.replyTime ≤ clock.lastMessageAt →
        ∀ m ∈ written.messages, m.timestamp ≤ clock.replyTime →
          m.timestamp ≤ written.lastMessageAt) ∧
      (written.messages.getLast?.map (fun m => m.timestamp) = some written.lastMessageAt ↔
        clock.replyTime = clock.lastMessageAt) := by
  obtain ⟨text, identity, user, reply, rfl, rfl, htext, hidentity, rfl, hpremium, rfl⟩ :=
    chat_success_inv hsuccess
  obtain ⟨previous, hprevious⟩ : ∃ previous, previous
      = (findConversation user.aiConversations sessionId).getD
        (newConversation sessionId (buildUserContext user (user.journeys.find? isActive))
          clock) := ⟨_, rfl⟩
  obtain ⟨written, hwritten⟩ : ∃ written : Conversation, written = { previous with
      messages := previous.messages ++
        [({ role := Role.user, content := text, timestamp := clock.userMessageTime } : Message),
         { role := Role.assistant, content := reply, timestamp := clock.replyTime }]
      lastMessageAt := clock.lastMessageAt } := ⟨_, rfl⟩
  obtain ⟨body2, saved, hchat, _, _, hnew, hold⟩ :=
    chat_success text identity sessionId user reply clock previous written htext hidentity
      hpremium hprevious hwritten
  have hmessages : written.messages = previous.messages ++
      [{ role := Role.user, content := text, timestamp := clock.userMessageTime },
       { role := Role.assistant, content := reply, timestamp := clock.replyTime }] := by
    rw [hwritten]
  have hlast : written.lastMessageAt = clock.lastMessageAt := by rw [hwritten]
  refine ⟨text, reply, user, saved, previous, written, rfl, rfl, rfl, by rw [hchat], hmessages,
    by rw [hwritten], by rw [hwritten], by rw [hwritten], by rw [hwritten], ?_, ?_, hlast,
    ?_, ?_, ?_⟩
  · intro hnone
    refine ⟨?_, hnew hnone⟩
    rw [hprevious, hnone]
    rfl
  · intro thread hthread
    refine ⟨by rw [hprevious, hthread]; rfl, ?_⟩
    cases sessionId with
    | none => simp [findConversation] at hthread
    | some wanted =>
      obtain ⟨before, after, hsplit, _, hupdate⟩ :=
        updateConversation_split (fun _ => written) hthread
      exact ⟨before, after, hsplit, by rw [hold wanted rfl (by rw [hthread]; simp), hupdate]⟩
  · rw [hmessages]; simp
  · intro hclock m _ hm
    rw [hlast]
    exact le_trans hm hclock
  · rw [hmessages, hlast]
    simp

theorem chat_turn_appends_witness :
    ∃ body, (chat (some "u1") (some "thank you") (some "s1") (some chattingUser)
        (some "you are welcome") tickingClock).response = .success body ∧
      ∃ saved, (chat (some "u1") (some "thank you") (some "s1") (some chattingUser)
        (some "you are welcome") tickingClock).saved = some saved :=
  have hbody : ∃ body, (chat (some "u1") (some "thank you") (some "s1")
      (some chattingUser) (some "you are welcome") tickingClock).response = .success body := by
    simp [chat, chattingUser, freshUser]
  hbody.imp (fun body h => ⟨h,
    (chat_turn_appends (some "u1") (some "thank you") (some "s1") (some chattingUser)
      (some "you are welcome") tickingClock body h).elim
      (fun _ h1 => h1.elim (fun _ h2 => h2.elim (fun _ h3 => h3.elim (fun saved h4 =>
        h4.elim (fun _ h5 => h5.elim (fun _ h6 => ⟨saved, h6.2.2.2.1⟩))))))⟩)

/-- C17 (counterexample): a successful chat turn in which the clock reads 2000
when the reply is pushed and 2001 when `lastMessageAt` is set saves a thread
whose `lastMessageAt` is 2001 while its last message has timestamp 2000. -/
theorem lastMessageAt_after_last_message :
    (chat (some "u1") (some "thank you") (some "s1") (some chattingUser)
        (some "you are welcome") tickingClock).saved.map
      (fun saved => saved.aiConversations.map
        (fun c => (c.lastMessageAt, c.messages.getLast?.map (fun m => m.timestamp))))
      = some [(2001, some 2000)] ∧
    ¬ ((chat (some "u1") (some "thank you") (some "s1") (some chattingUser)
        (some "you are welcome") tickingClock).saved.map
      (fun saved => saved.aiConversations.map (fun c => some c.lastMessageAt))
      = (chat (some "u1") (some "thank you") (some "s1") (some chattingUser)
        (some "you are welcome") tickingClock).saved.map
      (fun saved => saved.aiConversations.map
        (fun c => c.messages.getLast?.map (fun m => m.timestamp)))) := by
  refine ⟨by decide, by decide⟩

/-- C19 (amended): when the call of the completion provider fails, no chat
request saves anything, so the stored document is the one stored before; a
request that reached the call (message and user id not empty, user found,
premium access) is answered with HTTP status 500 and the error text
"AI coach temporarily unavailable", and this response carries the fixed
fallback message, which is not empty, together with the support contact
"support@resentmentrelease.com"; and a request whose message or user id is
absent or empty is rejected with HTTP status 400, whatever the other inputs,
with nothing saved. -/
theorem chat_failure_degraded :
    (∀ userId message sessionId found clock,
      (chat userId message sessionId found none clock).saved = none) ∧
    (∀ stored userId message sessionId clock,
      chatStored stored userId message sessionId none clock = stored) ∧
    (∀ text identity sessionId user clock,
      text ≠ "" → identity ≠ "" → user.hasPremiumAccess = true →
      (chat (some identity) (some text) sessionId (some user) none clock).response
        = .unavailable "AI coach temporarily unavailable" fallbackMessage
            "support@resentmentrelease.com") ∧
    fallbackMessage ≠ "" ∧
    (ChatResponse.unavailable "AI coach temporarily unavailable" fallbackMessage
      "support@resentmentrelease.com").httpStatus = 500 ∧
    ChatResponse.badRequest.httpStatus = 400 ∧
    (∀ userId sessionId found completion clock,
      chat userId none sessionId found completion clock
        = { response := .badRequest, saved := none } ∧
      chat userId (some "") sessionId found completion clock
        = { response := .badRequest, saved := none }) ∧
    (∀ message sessionId found completion clock,
      chat none message sessionId found completion clock
        = { response := .badRequest, saved := none } ∧
      chat (some "") message sessionId found completion clock
        = { response := .badRequest, saved := none }) ∧
    (∀ stored userId message sessionId completion clock,
      (chat userId message sessionId (some stored) completion clock).response = .badRequest →
      chatStored stored userId message sessionId completion clock = stored) ∧
    (chat (some "u1") (some "hello") (some "s1") (some chattingUser) none tickingClock).response
      = .unavailable "AI coach temporarily unavailable" fallbackMessage
          "support@resentmentrelease.com" ∧
    chatStored chattingUser (some "u1") (some "hello") (some "s1") none tickingClock
      = chattingUser := by
  have hsaved : ∀ userId message sessionId found clock,
      (chat userId message sessionId found none clock).saved = none := by
    intro userId message sessionId found clock
    unfold chat
    split
    · split
      · rfl
      · split
        · rfl
        · split <;> rfl
    · rfl
  refine ⟨hsaved, ?_, ?_, by simp [fallbackMessage], rfl, rfl, ?_, ?_, ?_, rfl, by decide⟩
  · intro stored userId message sessionId clock
    simp [chatStored, hsaved]
  · intro text identity sessionId user clock htext hidentity hpremium
    simp [chat, htext, hidentity, hpremium]
  · intro userId sessionId found completion clock
    constructor
    · cases userId <;> rfl
    · cases userId <;> simp [chat]
  · intro message sessionId found completion clock
    constructor
    · cases message <;> rfl
    · cases message <;> simp [chat]
  · intro stored userId message sessionId completion clock hbad
    unfold chatStored
    cases hout : (chat userId message sessionId (some stored) completion clock).saved with
    | none => rfl
    | some saved =>
      obtain ⟨body, hbody⟩ := chat_saved_inv hout
      rw [hbody] at hbad
      exact absurd hbad (by simp)

/-- C19 (counterexample): a chat request of a premium user whose completion
call fails is answered with the error response of HTTP status 500, a failure
status, not with a successful response. -/
theorem chat_failure_answers_500 :
    (chat (some "u1") (some "hello") (some "s1") (some chattingUser) none
        tickingClock).response.httpStatus = 500 ∧
    (∀ body, (chat (some "u1") (some "hello") (some "s1") (some chattingUser) none
        tickingClock).response ≠ .success body) ∧
    ¬ ((chat (some "u1") (some "hello") (some "s1") (some chattingUser) none
        tickingClock).response.httpStatus < 400) := by
  have hresponse : (chat (some "u1") (some "hello") (some "s1") (some chattingUser) none
      tickingClock).response = .unavailable "AI coach temporarily unavailable"
        fallbackMessage "support@resentmentrelease.com" := rfl
  rw [hresponse]
  refine ⟨rfl, ?_, by decide⟩
  intro body h
  cases h

/-! ## The conversation history -/

/-- C15: for every user and every optional session filter, a user with
premium access receives a list of summaries, and every list the handler
returns has `min 50 n` entries, where `n` is the number of threads of the user
that match the filter (all threads when the filter is absent or empty); the
`lastMessageAt` values of the summaries never increase along the list; the
summaries are, position by position, those of matching threads of the user
(same ids, message count, dates and preview); and the matching threads that
are left out are none of them more recent than any returned summary. -/
theorem conversation_listing (user : User) (sessionId : Option String) :
    (user.hasPremiumAccess = true →
      ∃ summaries, conversationHistory (some user) sessionId = .ok summaries) ∧
    (∀ c, c ∈ filterBySession user.aiConversations sessionId ↔
      c ∈ user.aiConversations ∧ ∀ wanted, sessionId = some wanted → wanted ≠ "" →
        c.sessionId = wanted) ∧
    (∀ summaries, conversationHistory (some user) sessionId = .ok summaries →
      summaries.length = min 50 (filterBySession user.aiConversations sessionId).length ∧
      (summaries.map (fun summary => summary.lastMessageAt)).Pairwise (fun a b => a ≥ b) ∧
      ∃ listed omitted,
        (listed ++ omitted).Perm (filterBySession user.aiConversations sessionId) ∧
        List.Forall₂
          (fun (summary : ConversationSummary) (c : Conversation) =>
            summary.conversationId = c.conversationId ∧
            summary.sessionId = c.sessionId ∧
            summary.messageCount = c.messages.length ∧
            summary.startedAt = c.startedAt ∧
            summary.lastMessageAt = c.lastMessageAt ∧
            summary.preview = conversationPreview c)
          summaries listed ∧
        (∀ summary ∈ summaries, ∃ c ∈ user.aiConversations,
          (∀ wanted, sessionId = some wanted → wanted ≠ "" → c.sessionId = wanted) ∧
          summary.conversationId = c.conversationId ∧
          summary.sessionId = c.sessionId ∧
          summary.lastMessageAt = c.lastMessageAt) ∧
        (∀ o ∈ omitted, ∀ summary ∈ summaries,
          o.lastMessageAt ≤ summary.lastMessageAt)) := by
  have hsorted := sortByRecency_sorted (filterBySession user.aiConversations sessionId)
  have hperm := sortByRecency_perm (filterBySession user.aiConversations sessionId)
  have hsplit : (sortByRecency (filterBySession user.aiConversations sessionId)).take 50 ++
      (sortByRecency (filterBySession user.aiConversations sessionId)).drop 50
      = sortByRecency (filterBySession user.aiConversations sessionId) :=
    List.take_append_drop 50 _
  refine ⟨?_, mem_filterBySession _ _, ?_⟩
  · intro hpremium
    exact ⟨_, by simp only [conversationHistory, hpremium]; rfl⟩
  · intro summaries hok
    have hsummaries : summaries
        = (selectConversations user.aiConversations sessionId).map summarize := by
      cases hpremium : user.hasPremiumAccess with
      | false => simp [conversationHistory, hpremium] at hok
      | true =>
        simp only [conversationHistory, hpremium, Bool.not_true, Bool.false_eq_true,
          if_false, Except.ok.injEq] at hok
        exact hok.symm
    have hlisted : ∀ c ∈ selectConversations user.aiConversations sessionId,
        c ∈ filterBySession user.aiConversations sessionId :=
      fun c hc => hperm.mem_iff.1 (List.mem_of_mem_take hc)
    subst hsummaries
    refine ⟨?_, ?_, selectConversations user.aiConversations sessionId,
      (sortByRecency (filterBySession user.aiConversations sessionId)).drop 50, ?_, ?_, ?_, ?_⟩
    · simp only [List.length_map, selectConversations, List.length_take, hperm.length_eq]
    · rw [List.map_map, List.pairwise_map]
      exact hsorted.sublist (List.take_sublist 50 _)
    · unfold selectConversations
      rw [hsplit]
      exact hperm
    · rw [List.forall₂_map_left_iff]
      exact List.forall₂_same.2 (fun c _ => ⟨rfl, rfl, rfl, rfl, rfl, rfl⟩)
    · intro summary hsummary
      obtain ⟨c, hc, rfl⟩ := List.mem_map.1 hsummary
      have hmatch := (mem_filterBySession _ _ c).1 (hlisted c hc)
      exact ⟨c, hmatch.1, hmatch.2, rfl, rfl, rfl⟩
    · intro o ho summary hsummary
      obtain ⟨c, hc, rfl⟩ := List.mem_map.1 hsummary
      rw [← hsplit] at hsorted
      exact (List.pairwise_append.1 hsorted).2.2 c hc o ho

/-- C16: evaluation of the history handler on a premium user whose only thread
has an empty message list: the preview is the text "undefined...", as for
every thread without messages. For a thread with a last message the preview is
the first 100 UTF-16 code units of its content followed by "..."; when the
content holds characters of the basic plane only, these are its first 100
characters. -/
theorem preview_of_empty_thread :
    (∀ c last, c.messages.getLast? = some last →
      (summarize c).preview = (utf16 last.content).take 100 ++ utf16 "...") ∧
    (∀ c last, c.messages.getLast? = some last →
      (∀ ch ∈ last.content.toList, ch.toNat < 65536) →
      (summarize c).preview
        = utf16 (String.mk (last.content.toList.take 100)) ++ utf16 "...") ∧
    (∀ c, c.messages = [] → (summarize c).preview = utf16 "undefined...") ∧
    utf16 "undefined..." = "undefined...".toList.map Char.toNat ∧
    conversationHistory (some emptyThreadUser) none
      = .ok [{ conversationId := "conv_1", sessionId := "s1", messageCount := 0,
               startedAt := 10, lastMessageAt := 10, preview := utf16 "undefined..." }] := by
  refine ⟨?_, ?_, ?_, by decide, rfl⟩
  · intro c last hlast
    simp [summarize, conversationPreview, hlast]
  · intro c last hlast hbasic
    have htake : ∀ ch ∈ last.content.toList.take 100, ch.toNat < 65536 :=
      fun ch hch => hbasic ch (List.mem_of_mem_take hch)
    simp only [summarize, conversationPreview, hlast, utf16]
    have hdata : (String.mk (last.content.toList.take 100)).toList
        = last.content.toList.take 100 := rfl
    rw [hdata, flatMap_utf16Units_basic _ hbasic, flatMap_utf16Units_basic _ htake,
      List.map_take]
  · intro c hempty
    simp only [summarize, conversationPreview, hempty, List.getLast?_nil]
    decide

end Release
